import Mathlib

/-!
Verification of the extraction orchestration and reconciliation engine of the
electoral-app backend (`app/core/extraction_service.py`, `app/core/voter_service.py`).

The Python source is shallowly embedded: enums become inductive types, the
pure helpers become Lean functions, and the session-scoped mutation helpers
become explicit state-passing functions over a `World` record.  Machine-level
details that the claims do not touch (SQL sessions, logging, asyncio
scheduling) are dropped; every behavioural branch of the embedded functions
mirrors the source line by line.
-/

namespace Electoral

/-! ## Status and type enums (`app/models/core.py`) -/
inductive SegmentType
  | HEADER
  | LIST_CHUNK
deriving DecidableEq, Repr

inductive SegmentStatus
  | PENDING
  | RUNNING
  | DONE
  | FAILED
  | SKIPPED
deriving DecidableEq, Repr

inductive ExtractionRunStatus
  | PENDING
  | RUNNING
  | COMPLETED
  | FAILED
  | PARTIAL
  | SKIPPED
deriving DecidableEq, Repr

/-! ## Segment planner (`ExtractionService._build_segments`) -/
/-- The `while current <= end_page` loop of `_build_segments`, with explicit
fuel (the Python loop advances by at least one page per iteration whenever
`max_pages_per_call >= 1`, so fuel `N - 1` is enough to run it to the end). -/
def buildChunks (maxPages : Int) : Nat → Int → Int → List (SegmentType × Int × Int)
  | 0, _, _ => []
  | Nat.succ fuel, current, endPage =>
    if current ≤ endPage then
      (SegmentType.LIST_CHUNK, current, min (current + maxPages - 1) endPage)
        :: buildChunks maxPages fuel (min (current + maxPages - 1) endPage + 1) endPage
    else []

/-- `ExtractionService._build_segments(page_count, max_pages_per_call)`:
a HEADER segment for page 1, then LIST_CHUNK segments for pages `2..N`
whenever `page_count` is truthy and greater than 1. -/
def build_segments (page_count : Option Int) (max_pages_per_call : Int) :
    List (SegmentType × Int × Int) :=
  match page_count with
  | some n =>
      if 1 < n then
        (SegmentType.HEADER, 1, 1) :: buildChunks max_pages_per_call (n - 1).toNat 2 n
      else
        [(SegmentType.HEADER, 1, 1)]
  | none => [(SegmentType.HEADER, 1, 1)]

/-- Specification-side predicate: the interval list exactly covers `lo..hi`,
contiguously, in ascending order, with no gaps and no overlaps. -/
def coversB : List (Int × Int) → Int → Int → Bool
  | [], lo, hi => lo == hi + 1
  | (a, b) :: rest, lo, hi =>
      ((a == lo) && (decide (a ≤ b)) && (decide (b ≤ hi))) && coversB rest (b + 1) hi

/-- Page range of a planned segment. -/
def chunkRange (seg : SegmentType × Int × Int) : Int × Int := (seg.2.1, seg.2.2)

/-! ## Section resolver (`VoterService._find_voter_section`) -/
/-- The fields of `DocumentSection` that the resolver reads. -/
structure DocumentSection where
  section_id : Int
  start_serial_number : Option Int
deriving DecidableEq, Repr

/-- Start serial of a section; only applied to sections that passed the
`start_serial_number is not None` filter, where `getD` is exact. -/
def startOf (s : DocumentSection) : Int := s.start_serial_number.getD 0

/-- The sort key comparison `(start_serial_number, section_id)` used by
`sorted(..., key=lambda s: (s.start_serial_number, s.section_id))`. -/
def secLe (a b : DocumentSection) : Bool :=
  decide (startOf a < startOf b) ||
    (startOf a == startOf b && decide (a.section_id ≤ b.section_id))

/-- Stable insertion step of the sort. -/
def insertSec (a : DocumentSection) : List DocumentSection → List DocumentSection
  | [] => [a]
  | b :: rest => if secLe a b then a :: b :: rest else b :: insertSec a rest

/-- Stable sort by `(start_serial_number, section_id)`, matching Python's
`sorted` (a stable ascending sort is unique, so insertion sort agrees). -/
def sortSections : List DocumentSection → List DocumentSection
  | [] => []
  | a :: rest => insertSec a (sortSections rest)

/-- The scanning loop of `_find_voter_section`: first section with
`start <= s` whose successor (if any) starts strictly after `s`. -/
def scanSections (s : Int) : List DocumentSection → Option DocumentSection
  | [] => none
  | [sec] => if startOf sec ≤ s then some sec else none
  | sec :: next :: rest =>
      if startOf sec ≤ s then
        if s < startOf next then some sec else scanSections s (next :: rest)
      else scanSections s (next :: rest)

/-- `VoterService._find_voter_section(voter_serial, sections)`. -/
def find_voter_section (voter_serial : Option Int) (sections : List DocumentSection) :
    Option DocumentSection :=
  match voter_serial with
  | none => none
  | some s =>
      if sections = [] then none
      else
        let sorted_sections :=
          sortSections (sections.filter (fun t => t.start_serial_number.isSome))
        if sorted_sections = [] then none
        else scanSections s sorted_sections

/-- Non-decreasing start serials. -/
def startLe (a b : DocumentSection) : Prop := startOf a ≤ startOf b

/-- The three section occurrences of the spec's worked example. -/
def exSections : List DocumentSection :=
  [⟨1, some 1⟩, ⟨2, some 51⟩, ⟨1, some 101⟩]

/-! ## Retry window (`ExtractionService._can_retry_segment`, `retry_segment`) -/
/-- The fields of an `ExtractionSegment` read by the retry check; `updated_at`
is a UTC timestamp in seconds. -/
structure SegmentRetryView where
  status : SegmentStatus
  updated_at : Int
deriving DecidableEq, Repr

/-- String rendering of a segment status, for the non-FAILED refusal text. -/
def segStatusName : SegmentStatus → String
  | SegmentStatus.PENDING => "SegmentStatus.PENDING"
  | SegmentStatus.RUNNING => "SegmentStatus.RUNNING"
  | SegmentStatus.DONE => "SegmentStatus.DONE"
  | SegmentStatus.FAILED => "SegmentStatus.FAILED"
  | SegmentStatus.SKIPPED => "SegmentStatus.SKIPPED"

/-- `ExtractionService._can_retry_segment(segment)` at wall-clock `now`
(seconds, UTC); `timedelta(hours=48)` is `48 * 3600` seconds. -/
def can_retry_segment (now : Int) (seg : SegmentRetryView) : Bool × String :=
  if seg.status = SegmentStatus.SKIPPED then
    (false, "Segment is SKIPPED and cannot be retried")
  else if seg.status ≠ SegmentStatus.FAILED then
    (false, "Segment is not in FAILED status (current: " ++ segStatusName seg.status ++ ")")
  else if seg.updated_at < now - 48 * 3600 then
    (false, "Retry time limit exceeded (48 hours)")
  else
    (true, "OK")

/-- Entry check of `ExtractionService.retry_segment`: raises (models as
`Except.error`) when the segment is missing or not retryable, otherwise
proceeds to dispatch (`Except.ok`). -/
def retry_segment (now : Int) (seg : Option SegmentRetryView) : Except String Unit :=
  match seg with
  | none => Except.error "Segment not found"
  | some sg =>
      let res := can_retry_segment now sg
      if res.1 = false then Except.error ("Cannot retry segment: " ++ res.2)
      else Except.ok ()

/-! ## Serial-sequence reconciler (`ExtractionService._deduplicate_and_validate_voters`)

The diagnostic sampling of the source (first-two / last-two / middle gaps,
dominant-increment inference, gap logging) only feeds log statements and
never changes the returned list, so it is not part of the embedding. -/
/-- A permissively-typed JSON scalar as `_to_int` receives it. -/
inductive PyVal
  | none
  | int (n : Int)
  | str (s : String)
deriving DecidableEq, Repr

/-- Digit-run parser backing the `int(cleaned)` call (ASCII-digit fragment of
the Python `int` constructor). -/
def parseDigits (l : List Char) : Option Nat :=
  if l = [] then Option.none
  else
    l.foldl
      (fun acc c =>
        match acc with
        | Option.none => Option.none
        | some n => if c.isDigit then some (n * 10 + (c.toNat - 48)) else Option.none)
      (some 0)

/-- `int(cleaned)` on an already-cleaned string: optional sign, then digits. -/
def parseIntPy (s : String) : Option Int :=
  match s.data with
  | [] => Option.none
  | c :: rest =>
      if c = '-' then (parseDigits rest).map (fun n => -(n : Int))
      else if c = '+' then (parseDigits rest).map (fun n => (n : Int))
      else (parseDigits s.data).map (fun n => (n : Int))

/-- `ExtractionService._to_int(value)`: `None`/unparsable strings map to none;
thousands separators and inner spaces are stripped first. -/
def to_int (v : PyVal) : Option Int :=
  match v with
  | PyVal.none => Option.none
  | PyVal.int n => some n
  | PyVal.str s =>
      let cleaned := s.trim
      if cleaned = "" then Option.none
      else parseIntPy ((cleaned.replace "," "").replace " " "")

/-- A `{local, english}` pair; a missing JSON key is `(none, none)`. -/
structure NamePair where
  loc : Option String
  english : Option String
deriving DecidableEq, Repr

/-- One raw voter-row object from a LIST_CHUNK response. -/
structure VoterRow where
  serial_number : PyVal
  voter_name : NamePair
  house_number : Option String
  relation_type : Option String
  relation_name : NamePair
  gender : Option String
  age : PyVal
  photo_id : Option String
deriving DecidableEq, Repr

/-- Python truthiness of an optional string field. -/
def truthyStr : Option String → Bool
  | Option.none => false
  | some s => s ≠ ""

/-- Python truthiness of a permissive scalar. -/
def truthyVal : PyVal → Bool
  | PyVal.none => false
  | PyVal.int n => n ≠ 0
  | PyVal.str s => s ≠ ""

/-- The completeness score of step 4 of `_deduplicate_and_validate_voters`:
one point per non-empty field among name (english or local), house number,
gender, age, photo id. -/
def rowScore (r : VoterRow) : Nat :=
  (if truthyStr r.voter_name.english || truthyStr r.voter_name.loc then 1 else 0) +
  (if truthyStr r.house_number then 1 else 0) +
  (if truthyStr r.gender then 1 else 0) +
  (if truthyVal r.age then 1 else 0) +
  (if truthyStr r.photo_id then 1 else 0)

/-- Parsed serial number of a row. -/
def serialOf (r : VoterRow) : Option Int := to_int r.serial_number

/-- The `best_row` selection loop: start from the running best and keep any
later row whose score strictly exceeds the running best score. -/
def pickBestGo (best : VoterRow) (bestScore : Int) : List VoterRow → VoterRow
  | [] => best
  | r :: rest =>
      if bestScore < (rowScore r : Int) then pickBestGo r (rowScore r) rest
      else pickBestGo best bestScore rest

/-- `best_row` over a duplicate group (`best_score` starts at `-1`, so the
first row always becomes the initial best). -/
def pickBest (l : List VoterRow) : Option VoterRow :=
  match l with
  | [] => Option.none
  | r :: rest => some (pickBestGo r (rowScore r) rest)

/-- `serial_to_rows[s]`: the rows whose parsed serial is `s`, in input order. -/
def groupRows (rows : List VoterRow) (s : Int) : List VoterRow :=
  rows.filter (fun r => decide (serialOf r = some s))

/-- All parsed serial numbers, in input order (with multiplicity). -/
def serialsOf (rows : List VoterRow) : List Int := rows.filterMap serialOf

/-- Ascending insertion step for `sorted(...)`. -/
def insertSorted (n : Int) : List Int → List Int
  | [] => [n]
  | m :: rest => if n ≤ m then n :: m :: rest else m :: insertSorted n rest

/-- `sorted(...)` on integer keys. -/
def sortInts : List Int → List Int
  | [] => []
  | n :: rest => insertSorted n (sortInts rest)

/-- `ExtractionService._deduplicate_and_validate_voters(all_rows, ...)`:
group rows by parsed serial, keep the best-scoring first-seen row for each
serial, emit groups in ascending serial order, then append the rows without
a parsable serial in their original relative order. -/
def _deduplicate_and_validate_voters (all_rows : List VoterRow) : List VoterRow :=
  if all_rows = [] then []
  else if all_rows.filter (fun r => (serialOf r).isSome) = [] then
    all_rows.filter (fun r => (serialOf r).isNone)
  else
    (sortInts (serialsOf all_rows).dedup).filterMap
        (fun s => pickBest (groupRows all_rows s))
      ++ all_rows.filter (fun r => (serialOf r).isNone)

/-- The spec's example duplicate pair: serial 25 with the age missing. -/
def dupRowA : VoterRow :=
  ⟨PyVal.int 25, ⟨some "A", Option.none⟩, some "H-1", Option.none, ⟨Option.none, Option.none⟩,
    some "M", PyVal.none, Option.none⟩

/-- The spec's example duplicate pair: serial 25 with the age present. -/
def dupRowB : VoterRow :=
  ⟨PyVal.int 25, ⟨some "A", Option.none⟩, some "H-1", Option.none, ⟨Option.none, Option.none⟩,
    some "M", PyVal.int 30, Option.none⟩

/-! ## Orchestration state model

The session-scoped mutation helpers of `extraction_service.py` become pure
functions over a `World` record holding the rows the service reads and
writes.  Header-JSON numerals are modelled in their intended integer-valued
shape (the stored columns are integers). -/
/-- The parsed-header fields read by the duplicate guard and the upsert. -/
structure HeaderJson where
  state : Option String
  part_number : Option Int
  ac_number_english : Option Int
deriving DecidableEq, Repr

/-- A stored `DocumentHeader` row (the columns the guard compares). -/
structure DocumentHeaderRow where
  document_id : Nat
  state : Option String
  part_number : Option Int
  assembly_constituency_number_english : Option Int
deriving DecidableEq, Repr

/-- A stored `ExtractionRun` row. -/
structure RunRow where
  id : Nat
  document_id : Nat
  status : ExtractionRunStatus
  error_message : Option String
  finished_at : Option Int
deriving DecidableEq, Repr

/-- A successfully parsed external-service JSON response. -/
structure ParsedResponse where
  header : Option HeaderJson
  list : Option (List VoterRow)
deriving DecidableEq, Repr

/-- `raw_response_json`: a parsed response, the `{skipped, reason}` marker,
or the `{error}` marker. -/
inductive RawResponse
  | parsed (p : ParsedResponse)
  | skippedMarker (reason : String)
  | errorMarker (e : String)
deriving DecidableEq, Repr

/-- A stored `ExtractionSegment` row. -/
structure SegmentRow where
  id : Nat
  extraction_run_id : Nat
  segment_type : SegmentType
  status : SegmentStatus
  raw_response_json : Option RawResponse
  parsed_header_json : Option HeaderJson
  parsed_list_json : Option (List VoterRow)
deriving DecidableEq, Repr

/-- `x or ""` on an optional string (None and `""` both yield `""`). -/
def strOrEmpty : Option String → String
  | Option.none => ""
  | some s => s

/-- A stored `Voter` row as built by `_merge_segments_and_persist`. -/
structure VoterModel where
  document_id : Nat
  serial_number : Option Int
  house_number : String
  voter_name_local : String
  voter_name_english : String
  relation_type : String
  relation_name_local : String
  relation_name_english : String
  gender : String
  age : Option Int
  photo_id : String
  raw_row_json : VoterRow
deriving DecidableEq, Repr

/-- The `Voter(...)` constructor call in `_merge_segments_and_persist`. -/
def toVoterModel (doc_id : Nat) (row : VoterRow) : VoterModel :=
  { document_id := doc_id
    serial_number := to_int row.serial_number
    house_number := strOrEmpty row.house_number
    voter_name_local := strOrEmpty row.voter_name.loc
    voter_name_english := strOrEmpty row.voter_name.english
    relation_type := strOrEmpty row.relation_type
    relation_name_local := strOrEmpty row.relation_name.loc
    relation_name_english := strOrEmpty row.relation_name.english
    gender := strOrEmpty row.gender
    age := to_int row.age
    photo_id := strOrEmpty row.photo_id
    raw_row_json := row }

/-- The stored rows visible to the extraction service. -/
structure World where
  headers : List DocumentHeaderRow
  runs : List RunRow
  segments : List SegmentRow
  voters : List VoterModel
deriving DecidableEq, Repr

/-- The firing condition of the duplicate guard:
`state and part_number is not None and ac_number_english is not None`
(`state` is tested by truthiness, the constituency numeral by its
english-script value). -/
def firesGuard (hj : HeaderJson) : Bool :=
  truthyStr hj.state && hj.part_number.isSome && hj.ac_number_english.isSome

/-- The stored-header filter of the guard queries. -/
def matchesTriple (hj : HeaderJson) (h : DocumentHeaderRow) : Bool :=
  h.state == hj.state && h.assembly_constituency_number_english == hj.ac_number_english
    && h.part_number == hj.part_number

/-- The duplicate error message built by `_check_duplicate_document`. -/
def dupErrorMsg (hj : HeaderJson) : String :=
  "Document already processed: state=" ++ strOrEmpty hj.state ++ ", constituency=" ++
    toString (hj.ac_number_english.getD 0) ++ ", part_number=" ++
    toString (hj.part_number.getD 0)

/-- `ExtractionService._check_duplicate_document(header_json, document_id)`. -/
def _check_duplicate_document (w : World) (hj : HeaderJson) (document_id : Nat) :
    Bool × Option String :=
  if firesGuard hj then
    if w.headers.any (fun h => matchesTriple hj h && h.document_id != document_id) then
      (true, some (dupErrorMsg hj))
    else (false, Option.none)
  else (false, Option.none)

/-- The `{skipped: True, reason}` payload written on skipped segments. -/
def skippedPayload (reason : String) : RawResponse := RawResponse.skippedMarker reason

/-- `all_doc_ids` of `_skip_duplicate_runs`: documents whose stored header
matches the triple, with the current document appended when absent. -/
def tripleDocIds (w : World) (hj : HeaderJson) (current_document_id : Nat) : List Nat :=
  let dup_doc_ids := (w.headers.filter (fun h => matchesTriple hj h)).map
    (fun h => h.document_id)
  if current_document_id ∈ dup_doc_ids then dup_doc_ids
  else dup_doc_ids ++ [current_document_id]

/-- The run filter of `_skip_duplicate_runs`: belongs to an affected document
and is still PENDING or RUNNING. -/
def runShouldSkip (ids : List Nat) (r : RunRow) : Bool :=
  decide (r.document_id ∈ ids) &&
    (r.status == ExtractionRunStatus.PENDING || r.status == ExtractionRunStatus.RUNNING)

/-- `ExtractionService._skip_duplicate_runs(header_json, current_document_id,
error_msg)`: skip every PENDING/RUNNING run of every document sharing the
triple (the current document included), and every PENDING/RUNNING segment of
those runs. -/
def _skip_duplicate_runs (w : World) (hj : HeaderJson) (current_document_id : Nat)
    (error_msg : String) (now : Int) : World :=
  if firesGuard hj then
    let all_doc_ids := tripleDocIds w hj current_document_id
    { w with
      runs := w.runs.map (fun r =>
        if runShouldSkip all_doc_ids r then
          { r with status := ExtractionRunStatus.SKIPPED,
                   error_message := some error_msg,
                   finished_at := some (r.finished_at.getD now) }
        else r)
      segments := w.segments.map (fun sg =>
        if (w.runs.any (fun r => runShouldSkip all_doc_ids r && r.id == sg.extraction_run_id))
            && (sg.status == SegmentStatus.PENDING || sg.status == SegmentStatus.RUNNING) then
          { sg with status := SegmentStatus.SKIPPED,
                    raw_response_json := some (skippedPayload error_msg) }
        else sg) }
  else w

/-- `ExtractionService._upsert_document_header(document_id, header_json)`. -/
def _upsert_document_header (w : World) (document_id : Nat) (hj : HeaderJson) : World :=
  let updated : DocumentHeaderRow :=
    { document_id := document_id
      state := hj.state
      part_number := hj.part_number
      assembly_constituency_number_english := hj.ac_number_english }
  if w.headers.any (fun h => h.document_id == document_id) then
    { w with headers := w.headers.map (fun h =>
        if h.document_id == document_id then updated else h) }
  else
    { w with headers := w.headers ++ [updated] }

/-- `any(s.status in (PENDING, RUNNING))` of `_update_extraction_run_status`. -/
def segInProgress (s : SegmentRow) : Bool :=
  s.status == SegmentStatus.PENDING || s.status == SegmentStatus.RUNNING

def anyUnfinished (segs : List SegmentRow) : Bool := segs.any segInProgress

def anyFailedB (segs : List SegmentRow) : Bool :=
  segs.any (fun s => s.status == SegmentStatus.FAILED)

def allDoneB (segs : List SegmentRow) : Bool :=
  segs.all (fun s => s.status == SegmentStatus.DONE)

def anyDoneB (segs : List SegmentRow) : Bool :=
  segs.any (fun s => s.status == SegmentStatus.DONE)

def hasHeaderB (segs : List SegmentRow) : Bool :=
  segs.any (fun s => s.segment_type == SegmentType.HEADER && s.status == SegmentStatus.DONE)

def hasListB (segs : List SegmentRow) : Bool :=
  segs.any (fun s => s.segment_type == SegmentType.LIST_CHUNK && s.status == SegmentStatus.DONE)

/-- The `All segments failed` error message. -/
def failedMsg (n : Nat) : String := "All segments failed. Failed segments: " ++ toString n

/-- The body of `_update_extraction_run_status` acting on one run and its
segments (the DB session loads exactly `run` and `run.segments`). -/
def recomputeRunStatus (run : RunRow) (segments : List SegmentRow) (now : Int) : RunRow :=
  if run.status = ExtractionRunStatus.SKIPPED ∨ run.status = ExtractionRunStatus.COMPLETED then
    run
  else if anyUnfinished segments then
    { run with status := ExtractionRunStatus.RUNNING, finished_at := Option.none }
  else if allDoneB segments && hasHeaderB segments && hasListB segments
      && !anyFailedB segments then
    { run with status := ExtractionRunStatus.COMPLETED,
               finished_at := some (run.finished_at.getD now) }
  else if anyDoneB segments && (hasHeaderB segments || hasListB segments) then
    { run with status := ExtractionRunStatus.PARTIAL,
               finished_at := some (run.finished_at.getD now) }
  else if anyFailedB segments && !anyDoneB segments then
    { run with status := ExtractionRunStatus.FAILED,
               error_message := some (failedMsg (segments.filter
                 (fun s => s.status == SegmentStatus.FAILED)).length),
               finished_at := some (run.finished_at.getD now) }
  else run

/-- Segments belonging to a run. -/
def runSegments (w : World) (run_id : Nat) : List SegmentRow :=
  w.segments.filter (fun sg => sg.extraction_run_id == run_id)

/-- `db.get(ExtractionRun, run_id)`. -/
def findRun (w : World) (run_id : Nat) : Option RunRow :=
  w.runs.find? (fun r => r.id == run_id)

/-- `db.get(ExtractionSegment, segment_id)`. -/
def findSegment (w : World) (seg_id : Nat) : Option SegmentRow :=
  w.segments.find? (fun sg => sg.id == seg_id)

/-- Commit a mutation of one segment row. -/
def setSegment (w : World) (seg_id : Nat) (f : SegmentRow → SegmentRow) : World :=
  { w with segments := w.segments.map (fun sg => if sg.id == seg_id then f sg else sg) }

/-- `ExtractionService._update_extraction_run_status(extraction_run_id)`. -/
def _update_extraction_run_status (w : World) (run_id : Nat) (now : Int) : World :=
  match findRun w run_id with
  | Option.none => w
  | some run =>
      let updated := recomputeRunStatus run (runSegments w run_id) now
      { w with runs := w.runs.map (fun r => if r.id == run_id then updated else r) }

/-- Mark a segment SKIPPED with the `{skipped, reason}` payload. -/
def markSkipped (reason : String) (sg : SegmentRow) : SegmentRow :=
  { sg with status := SegmentStatus.SKIPPED,
            raw_response_json := some (skippedPayload reason) }

/-- Persist a successful HEADER response on a segment (status DONE, raw and
parsed payloads; `parsed_list_json` is only written when the response has a
`list` key). -/
def persistDoneHeader (parsed : ParsedResponse) (sg : SegmentRow) : SegmentRow :=
  { sg with status := SegmentStatus.DONE,
            raw_response_json := some (RawResponse.parsed parsed),
            parsed_header_json := parsed.header,
            parsed_list_json := if parsed.list.isSome then parsed.list else sg.parsed_list_json }

/-- `ExtractionService._process_segment_response` specialised to
`seg_type = HEADER` (the branch the duplicate guard lives in). -/
def process_header_response (w : World) (segment_id : Nat) (parsed : ParsedResponse)
    (extraction_run_id : Nat) (now : Int) : World :=
  match findSegment w segment_id with
  | Option.none => w
  | some _ =>
      match findRun w extraction_run_id with
      | some run =>
          if run.status = ExtractionRunStatus.SKIPPED then
            setSegment w segment_id (markSkipped (run.error_message.getD "Run was skipped"))
          else
            let w1 := setSegment w segment_id (persistDoneHeader parsed)
            match parsed.header with
            | some hj =>
                let check := _check_duplicate_document w1 hj run.document_id
                if check.1 then
                  let msg := (check.2).getD ""
                  let w2 := _skip_duplicate_runs w1 hj run.document_id msg now
                  setSegment w2 segment_id (markSkipped msg)
                else
                  let w2 := _upsert_document_header w1 run.document_id hj
                  _update_extraction_run_status w2 extraction_run_id now
            | Option.none => _update_extraction_run_status w1 extraction_run_id now
      | Option.none =>
          let w1 := setSegment w segment_id (persistDoneHeader parsed)
          _update_extraction_run_status w1 extraction_run_id now

/-- `(seg.raw_response_json or {}).get("list") or []`. -/
def rawListOf (sg : SegmentRow) : List VoterRow :=
  match sg.raw_response_json with
  | some (RawResponse.parsed p) =>
      match p.list with
      | some l => l
      | Option.none => []
  | _ => []

/-- `seg.parsed_list_json or (seg.raw_response_json or {}).get("list") or []`
(an empty parsed list is falsy and falls through to the raw payload). -/
def rowsOfSegment (sg : SegmentRow) : List VoterRow :=
  match sg.parsed_list_json with
  | some l => if l = [] then rawListOf sg else l
  | Option.none => rawListOf sg

/-- `all_rows` of `_merge_segments_and_persist`: the concatenated payloads of
the run's DONE LIST_CHUNK segments. -/
def collectListRows (w : World) (extraction_run_id : Nat) : List VoterRow :=
  ((runSegments w extraction_run_id).filter
    (fun sg => sg.segment_type == SegmentType.LIST_CHUNK
      && sg.status == SegmentStatus.DONE)).foldl
    (fun acc sg => acc ++ rowsOfSegment sg) []

/-- `ExtractionService._merge_segments_and_persist(extraction_run_id)`. -/
def _merge_segments_and_persist (w : World) (extraction_run_id : Nat) (now : Int) : World :=
  match findRun w extraction_run_id with
  | Option.none => w
  | some run =>
      if run.status = ExtractionRunStatus.SKIPPED then w
      else
        let document_id := run.document_id
        let all_rows := collectListRows w extraction_run_id
        if all_rows = [] then
          _update_extraction_run_status w extraction_run_id now
        else
          let validated_rows := _deduplicate_and_validate_voters all_rows
          let voter_models := validated_rows.map (toVoterModel document_id)
          let w1 : World := { w with voters :=
            (w.voters.filter (fun v => decide (v.document_id ≠ document_id))) ++
              (if voter_models = [] then [] else voter_models) }
          _update_extraction_run_status w1 extraction_run_id now

/-- A RUNNING run used in status-aggregation examples. -/
def runRunning : RunRow := ⟨1, 1, ExtractionRunStatus.RUNNING, Option.none, Option.none⟩

/-- A SKIPPED header segment of that run. -/
def segSkipped : SegmentRow :=
  ⟨1, 1, SegmentType.HEADER, SegmentStatus.SKIPPED, Option.none, Option.none, Option.none⟩

/-- A PENDING run and its PENDING segment, for the in-progress clause. -/
def runPending : RunRow := ⟨2, 1, ExtractionRunStatus.PENDING, Option.none, Option.none⟩

def segPending : SegmentRow :=
  ⟨2, 2, SegmentType.HEADER, SegmentStatus.PENDING, Option.none, Option.none, Option.none⟩

/-- A RUNNING run with a DONE header and a DONE list chunk. -/
def runC4 : RunRow := ⟨3, 2, ExtractionRunStatus.RUNNING, Option.none, Option.none⟩

def segHdrDone : SegmentRow :=
  ⟨3, 3, SegmentType.HEADER, SegmentStatus.DONE, Option.none, Option.none, Option.none⟩

def segListDone : SegmentRow :=
  ⟨4, 3, SegmentType.LIST_CHUNK, SegmentStatus.DONE, Option.none, Option.none, Option.none⟩

/-- A run with a DONE list segment holding two duplicate rows. -/
def runC5 : RunRow := ⟨7, 4, ExtractionRunStatus.RUNNING, Option.none, Option.none⟩

def segListC5 : SegmentRow :=
  ⟨10, 7, SegmentType.LIST_CHUNK, SegmentStatus.DONE, Option.none, Option.none,
    some [dupRowA, dupRowB]⟩

/-- A voter row of an unrelated document. -/
def otherVoter : VoterModel := toVoterModel 9 dupRowA

/-- A stale voter row of the merged document. -/
def staleVoter : VoterModel := toVoterModel 4 dupRowB

def w5good : World := ⟨[], [runC5], [segListC5], [otherVoter, staleVoter]⟩

/-- A RUNNING run with no DONE list segments and a pre-existing voter row. -/
def runC5cex : RunRow := ⟨1, 1, ExtractionRunStatus.RUNNING, Option.none, Option.none⟩

def cexVoter : VoterModel := toVoterModel 1 dupRowA

def w5cex : World := ⟨[], [runC5cex], [], [cexVoter]⟩

/-- The counterexample header for the truthiness gap: empty-string state. -/
def hjC2 : HeaderJson := ⟨some "", some 7, some 9⟩

/-- A stored header of another document with the identical triple. -/
def storedC2 : DocumentHeaderRow := ⟨2, some "", some 7, some 9⟩

def runC2 : RunRow := ⟨11, 1, ExtractionRunStatus.RUNNING, Option.none, Option.none⟩

def segC2 : SegmentRow :=
  ⟨20, 11, SegmentType.HEADER, SegmentStatus.RUNNING, Option.none, Option.none, Option.none⟩

def w2cex : World := ⟨[storedC2], [runC2], [segC2], []⟩

def parsedC2 : ParsedResponse := ⟨some hjC2, Option.none⟩

/-- A duplicate pair with a truthy state, for the amended C2. -/
def hjDup : HeaderJson := ⟨some "Bihar", some 7, some 9⟩

def storedDup : DocumentHeaderRow := ⟨2, some "Bihar", some 7, some 9⟩

def runDup : RunRow := ⟨31, 1, ExtractionRunStatus.RUNNING, Option.none, Option.none⟩

def runDupOther : RunRow := ⟨32, 2, ExtractionRunStatus.PENDING, Option.none, Option.none⟩

def segDup : SegmentRow :=
  ⟨40, 31, SegmentType.HEADER, SegmentStatus.RUNNING, Option.none, Option.none, Option.none⟩

def segDupOther : SegmentRow :=
  ⟨41, 32, SegmentType.LIST_CHUNK, SegmentStatus.PENDING, Option.none, Option.none,
    Option.none⟩

def wDup : World := ⟨[storedDup], [runDup, runDupOther], [segDup, segDupOther], []⟩

def parsedDup : ParsedResponse := ⟨some hjDup, Option.none⟩

/-- The C10 witness world: an identical stored triple with empty state. -/
def hjC10 : HeaderJson := ⟨some "", some 12, some 34⟩

def storedC10 : DocumentHeaderRow := ⟨2, some "", some 12, some 34⟩

def runC10 : RunRow := ⟨21, 5, ExtractionRunStatus.RUNNING, Option.none, Option.none⟩

def segC10 : SegmentRow :=
  ⟨22, 21, SegmentType.HEADER, SegmentStatus.RUNNING, Option.none, Option.none, Option.none⟩

def w10 : World := ⟨[storedC10], [runC10], [segC10], []⟩

def parsedC10 : ParsedResponse := ⟨some hjC10, Option.none⟩

theorem buildChunks_spec (M : Int) (hM : 1 ≤ M) :
    ∀ (fuel : Nat) (current endPage : Int),
      current ≤ endPage + 1 →
      endPage + 1 - current ≤ (fuel : Int) →
      coversB ((buildChunks M fuel current endPage).map chunkRange) current endPage = true ∧
      ∀ seg ∈ buildChunks M fuel current endPage,
        seg.1 = SegmentType.LIST_CHUNK ∧ seg.2.2 - seg.2.1 + 1 ≤ M := by
  intro fuel
  induction fuel with
  | zero =>
      intro current endPage h1 h2
      refine ⟨?_, ?_⟩
      · simp only [buildChunks, List.map_nil, coversB, beq_iff_eq]
        simp only [Nat.cast_zero] at h2
        omega
      · intro seg hseg
        simp only [buildChunks, List.not_mem_nil] at hseg
  | succ fuel ih =>
      intro current endPage h1 h2
      by_cases hc : current ≤ endPage
      · have hmin : current ≤ min (current + M - 1) endPage ∧
            min (current + M - 1) endPage ≤ endPage ∧
            min (current + M - 1) endPage ≤ current + M - 1 := by
          rcases le_total (current + M - 1) endPage with h | h
          · rw [min_eq_left h]; omega
          · rw [min_eq_right h]; omega
        obtain ⟨hm1, hm2, hm3⟩ := hmin
        have hrec := ih (min (current + M - 1) endPage + 1) endPage (by omega)
          (by push_cast at h2 ⊢; omega)
        refine ⟨?_, ?_⟩
        · simp only [buildChunks, if_pos hc, List.map_cons, chunkRange, coversB]
          rw [hrec.1]
          simp only [Bool.and_true, Bool.and_eq_true, beq_iff_eq, decide_eq_true_eq]
          refine ⟨⟨?_, hm1⟩, hm2⟩
          trivial
        · intro seg hseg
          simp only [buildChunks, if_pos hc, List.mem_cons] at hseg
          rcases hseg with h | h
          · subst h; exact ⟨rfl, by simpa using by omega⟩
          · exact hrec.2 seg h
      · have hcur : current = endPage + 1 := by omega
        refine ⟨?_, ?_⟩
        · simp only [buildChunks, if_neg hc, List.map_nil, coversB, beq_iff_eq]
          omega
        · intro seg hseg
          simp only [buildChunks, if_neg hc, List.not_mem_nil] at hseg

/-- C1: for every page count `N` and maximum pages-per-call `M ≥ 1` the
planner is a pure function returning the HEADER segment for page 1 first;
when `N > 1` it is followed by LIST_CHUNK segments exactly covering pages
`2..N` contiguously, non-overlapping, in ascending order, each at most `M`
pages wide; when `N ≤ 1` or `N` is missing the result is exactly the single
HEADER segment. -/
theorem build_segments_planner_correct (pc : Option Int) (M : Int) (hM : 1 ≤ M) :
    (∀ N, pc = some N → 1 < N →
      ∃ chunks, build_segments pc M = (SegmentType.HEADER, 1, 1) :: chunks ∧
        (∀ seg ∈ chunks, seg.1 = SegmentType.LIST_CHUNK ∧ seg.2.2 - seg.2.1 + 1 ≤ M) ∧
        coversB (chunks.map chunkRange) 2 N = true) ∧
    ((∀ N, pc = some N → N ≤ 1) → build_segments pc M = [(SegmentType.HEADER, 1, 1)]) := by
  constructor
  · intro N hpc hN
    subst hpc
    refine ⟨buildChunks M (N - 1).toNat 2 N, ?_, ?_, ?_⟩
    · simp only [build_segments, if_pos hN]
    · exact (buildChunks_spec M hM (N - 1).toNat 2 N (by omega)
        (by rw [Int.toNat_of_nonneg (by omega)]; omega)).2
    · exact (buildChunks_spec M hM (N - 1).toNat 2 N (by omega)
        (by rw [Int.toNat_of_nonneg (by omega)]; omega)).1
  · intro hsmall
    match pc with
    | none => rfl
    | some n =>
        have := hsmall n rfl
        simp only [build_segments, if_neg (by omega : ¬ 1 < n)]

/-- Witness for C1 at `N = 9`, `M = 8` (the spec's end-to-end scenario). -/
theorem build_segments_planner_correct_witness :
    (1 : Int) ≤ 8 ∧
    ((∀ N, (some (9 : Int)) = some N → 1 < N →
      ∃ chunks, build_segments (some 9) 8 = (SegmentType.HEADER, 1, 1) :: chunks ∧
        (∀ seg ∈ chunks, seg.1 = SegmentType.LIST_CHUNK ∧ seg.2.2 - seg.2.1 + 1 ≤ 8) ∧
        coversB (chunks.map chunkRange) 2 N = true) ∧
     ((∀ N, (some (9 : Int)) = some N → N ≤ 1) →
        build_segments (some 9) 8 = [(SegmentType.HEADER, 1, 1)])) :=
  ⟨by decide, build_segments_planner_correct (some 9) 8 (by decide)⟩

theorem secLe_start {a b : DocumentSection} (h : secLe a b = true) : startOf a ≤ startOf b := by
  simp only [secLe, Bool.or_eq_true, Bool.and_eq_true, decide_eq_true_eq, beq_iff_eq] at h
  rcases h with h | ⟨h, _⟩ <;> omega

theorem secLe_total {a b : DocumentSection} (h : ¬ secLe a b = true) : startOf b ≤ startOf a := by
  simp only [secLe, Bool.or_eq_true, Bool.and_eq_true, decide_eq_true_eq, beq_iff_eq] at h
  push_neg at h
  exact h.1

theorem mem_insertSec {x a : DocumentSection} {l : List DocumentSection} :
    x ∈ insertSec a l ↔ x = a ∨ x ∈ l := by
  induction l with
  | nil => simp [insertSec]
  | cons b rest ih =>
      by_cases h : secLe a b = true
      · simp [insertSec, h]
      · simp only [insertSec, if_neg h, List.mem_cons, ih]
        tauto

theorem mem_sortSections {x : DocumentSection} {l : List DocumentSection} :
    x ∈ sortSections l ↔ x ∈ l := by
  induction l with
  | nil => simp [sortSections]
  | cons a rest ih =>
      simp only [sortSections, mem_insertSec, ih, List.mem_cons]

theorem sortSections_nil_iff {l : List DocumentSection} : sortSections l = [] ↔ l = [] := by
  cases l with
  | nil => simp [sortSections]
  | cons a rest =>
      constructor
      · intro h
        have hmem : a ∈ insertSec a (sortSections rest) := mem_insertSec.mpr (Or.inl rfl)
        have h2 : insertSec a (sortSections rest) = [] := by
          simpa [sortSections] using h
        rw [h2] at hmem
        exact absurd hmem (List.not_mem_nil a)
      · intro h
        simp at h

theorem pairwise_insertSec {a : DocumentSection} {l : List DocumentSection}
    (h : l.Pairwise startLe) : (insertSec a l).Pairwise startLe := by
  induction l with
  | nil => simp [insertSec]
  | cons b rest ih =>
      rcases List.pairwise_cons.mp h with ⟨hb, hrest⟩
      by_cases hab : secLe a b = true
      · simp only [insertSec, if_pos hab]
        refine List.pairwise_cons.mpr ⟨?_, h⟩
        intro x hx
        rcases List.mem_cons.mp hx with rfl | hx
        · exact secLe_start hab
        · exact le_trans (secLe_start hab) (hb x hx)
      · simp only [insertSec, if_neg hab]
        refine List.pairwise_cons.mpr ⟨?_, ih hrest⟩
        intro x hx
        rcases mem_insertSec.mp hx with rfl | hx
        · exact secLe_total hab
        · exact hb x hx

theorem pairwise_sortSections (l : List DocumentSection) :
    (sortSections l).Pairwise startLe := by
  induction l with
  | nil => simp [sortSections]
  | cons a rest ih => exact pairwise_insertSec ih

theorem scanSections_sound (s : Int) :
    ∀ (l : List DocumentSection), l.Pairwise startLe →
      ∀ sec, scanSections s l = some sec →
        sec ∈ l ∧ startOf sec ≤ s ∧
        ∀ t ∈ l, ¬(startOf sec < startOf t ∧ startOf t ≤ s) := by
  intro l
  induction l with
  | nil =>
      intro _ sec h
      simp [scanSections] at h
  | cons sec0 rest ih =>
      intro hp sec h
      rcases List.pairwise_cons.mp hp with ⟨h0, hrest⟩
      cases rest with
      | nil =>
          by_cases hle : startOf sec0 ≤ s
          · simp only [scanSections, if_pos hle, Option.some.injEq] at h
            subst h
            refine ⟨List.mem_singleton.mpr rfl, hle, ?_⟩
            intro t ht
            rcases List.mem_singleton.mp ht with rfl
            omega
          · simp only [scanSections, if_neg hle] at h
            exact Option.noConfusion h
      | cons next rest2 =>
          by_cases hle : startOf sec0 ≤ s
          · by_cases hnext : s < startOf next
            · simp only [scanSections, if_pos hle, if_pos hnext, Option.some.injEq] at h
              subst h
              refine ⟨List.mem_cons_self _ _, hle, ?_⟩
              intro t ht
              rcases List.mem_cons.mp ht with rfl | ht
              · omega
              · have hnt : startOf next ≤ startOf t := by
                  rcases List.mem_cons.mp ht with rfl | ht2
                  · exact le_refl _
                  · exact (List.pairwise_cons.mp hrest).1 t ht2
                omega
            · simp only [scanSections, if_pos hle, if_neg hnext] at h
              obtain ⟨hmem, hsle, hall⟩ := ih hrest sec h
              refine ⟨List.mem_cons_of_mem _ hmem, hsle, ?_⟩
              intro t ht
              rcases List.mem_cons.mp ht with rfl | ht
              · have : startOf t ≤ startOf sec := h0 sec hmem
                omega
              · exact hall t ht
          · simp only [scanSections, if_neg hle] at h
            obtain ⟨hmem, hsle, hall⟩ := ih hrest sec h
            refine ⟨List.mem_cons_of_mem _ hmem, hsle, ?_⟩
            intro t ht
            rcases List.mem_cons.mp ht with rfl | ht
            · omega
            · exact hall t ht

theorem scanSections_isSome (s : Int) :
    ∀ l : List DocumentSection, (∃ t ∈ l, startOf t ≤ s) → (scanSections s l).isSome = true := by
  intro l
  induction l with
  | nil =>
      rintro ⟨t, ht, _⟩
      cases ht
  | cons sec0 rest ih =>
      rintro ⟨t, ht, hts⟩
      cases rest with
      | nil =>
          rcases List.mem_singleton.mp ht with rfl
          simp [scanSections, hts]
      | cons next rest2 =>
          by_cases hle : startOf sec0 ≤ s
          · by_cases hnext : s < startOf next
            · simp [scanSections, hle, hnext]
            · have hrec : (scanSections s (next :: rest2)).isSome = true :=
                ih ⟨next, List.mem_cons_self _ _, by omega⟩
              simpa [scanSections, hle, hnext] using hrec
          · have htr : t ∈ next :: rest2 := by
              rcases List.mem_cons.mp ht with rfl | h2
              · omega
              · exact h2
            have hrec := ih ⟨t, htr, hts⟩
            simpa [scanSections, hle] using hrec

/-- C8: the section resolver considers only occurrences with a non-null
start, and returns an occurrence with start `≤ s` such that no eligible
occurrence starts in `(start, s]`; it returns none exactly when the serial is
null or every eligible occurrence starts strictly after `s` (in particular
when there is no eligible occurrence at all).  The spec's worked example
resolves as stated. -/
theorem find_voter_section_correct (vs : Option Int) (sections : List DocumentSection) :
    (match find_voter_section vs sections with
     | some sec => ∃ s, vs = some s ∧ sec ∈ sections ∧ sec.start_serial_number.isSome ∧
         startOf sec ≤ s ∧
         ∀ t ∈ sections, t.start_serial_number.isSome →
           ¬(startOf sec < startOf t ∧ startOf t ≤ s)
     | none => vs = none ∨ ∀ s, vs = some s → ∀ t ∈ sections,
         t.start_serial_number.isSome → s < startOf t) ∧
    find_voter_section (some 75) exSections = some ⟨2, some 51⟩ ∧
    find_voter_section (some 120) exSections = some ⟨1, some 101⟩ ∧
    find_voter_section (some 0) exSections = none := by
  refine ⟨?_, by decide, by decide, by decide⟩
  match hvs : vs with
  | none => simp [find_voter_section]
  | some s =>
      by_cases hnil : sections = []
      · subst hnil
        simp [find_voter_section]
      · by_cases hsort :
          sortSections (sections.filter (fun t => t.start_serial_number.isSome)) = []
        · have hfe : sections.filter (fun t => t.start_serial_number.isSome) = [] :=
            sortSections_nil_iff.mp hsort
          have hres : find_voter_section (some s) sections = none := by
            simp [find_voter_section, hnil, hsort]
          rw [hres]
          refine Or.inr ?_
          intro s2 hs2 t ht hsome
          have : t ∈ sections.filter (fun t => t.start_serial_number.isSome) :=
            List.mem_filter.mpr ⟨ht, hsome⟩
          rw [hfe] at this
          exact absurd this (List.not_mem_nil t)
        · have hres : find_voter_section (some s) sections =
              scanSections s
                (sortSections (sections.filter (fun t => t.start_serial_number.isSome))) := by
            simp [find_voter_section, hnil, hsort]
          rw [hres]
          match hscan : scanSections s
              (sortSections (sections.filter (fun t => t.start_serial_number.isSome))) with
          | some sec =>
              obtain ⟨hmem, hsle, hall⟩ :=
                scanSections_sound s _ (pairwise_sortSections _) sec hscan
              have hmem2 := List.mem_filter.mp (mem_sortSections.mp hmem)
              refine ⟨s, rfl, hmem2.1, by simpa using hmem2.2, hsle, ?_⟩
              intro t ht hsome
              exact hall t (mem_sortSections.mpr (List.mem_filter.mpr ⟨ht, hsome⟩))
          | none =>
              refine Or.inr ?_
              intro s2 hs2 t ht hsome
              cases hs2
              by_contra hcon
              push_neg at hcon
              have : (scanSections s
                  (sortSections (sections.filter (fun t => t.start_serial_number.isSome)))).isSome
                    = true :=
                scanSections_isSome s _
                  ⟨t, mem_sortSections.mpr (List.mem_filter.mpr ⟨ht, hsome⟩), hcon⟩
              rw [hscan] at this
              cases this

theorem can_retry_failed (now : Int) (seg : SegmentRetryView)
    (hf : seg.status = SegmentStatus.FAILED) :
    can_retry_segment now seg =
      if seg.updated_at < now - 48 * 3600 then
        (false, "Retry time limit exceeded (48 hours)")
      else (true, "OK") := by
  unfold can_retry_segment
  rw [if_neg (by simp [hf]), if_neg (not_not_intro hf)]

/-- C9: the retry check accepts exactly FAILED segments updated within the
last 48 hours; SKIPPED and other non-FAILED segments are never retryable; a
segment older than 48 hours yields the time-limit reason; 47h59m is inside
the window and 48h01m outside; and the retry entry point refuses with the
structured reason instead of dispatching whenever the check fails. -/
theorem can_retry_segment_correct (now : Int) (seg : SegmentRetryView) :
    ((can_retry_segment now seg).1 = true ↔
      seg.status = SegmentStatus.FAILED ∧ now - 48 * 3600 ≤ seg.updated_at) ∧
    (seg.status = SegmentStatus.SKIPPED → (can_retry_segment now seg).1 = false) ∧
    (seg.status ≠ SegmentStatus.FAILED → (can_retry_segment now seg).1 = false) ∧
    (seg.status = SegmentStatus.FAILED → seg.updated_at < now - 48 * 3600 →
      can_retry_segment now seg = (false, "Retry time limit exceeded (48 hours)")) ∧
    (seg.status = SegmentStatus.FAILED → seg.updated_at = now - (47 * 3600 + 59 * 60) →
      (can_retry_segment now seg).1 = true) ∧
    (seg.status = SegmentStatus.FAILED → seg.updated_at = now - (48 * 3600 + 60) →
      (can_retry_segment now seg).1 = false) ∧
    ((can_retry_segment now seg).1 = false →
      retry_segment now (some seg) =
        Except.error ("Cannot retry segment: " ++ (can_retry_segment now seg).2)) := by
  refine ⟨?_, ?_, ?_, ?_, ?_, ?_, ?_⟩
  · constructor
    · intro h
      by_cases hsk : seg.status = SegmentStatus.SKIPPED
      · simp [can_retry_segment, hsk] at h
      · by_cases hf : seg.status = SegmentStatus.FAILED
        · rw [can_retry_failed now seg hf] at h
          by_cases ht : seg.updated_at < now - 48 * 3600
          · rw [if_pos ht] at h
            simp at h
          · exact ⟨hf, by omega⟩
        · simp [can_retry_segment, hsk, hf] at h
    · rintro ⟨hf, ht⟩
      rw [can_retry_failed now seg hf, if_neg (by omega)]
  · intro hsk
    simp [can_retry_segment, hsk]
  · intro hf
    by_cases hsk : seg.status = SegmentStatus.SKIPPED
    · simp [can_retry_segment, hsk]
    · simp [can_retry_segment, hsk, hf]
  · intro hf ht
    rw [can_retry_failed now seg hf, if_pos ht]
  · intro hf ht
    rw [can_retry_failed now seg hf, if_neg (by omega)]
  · intro hf ht
    rw [can_retry_failed now seg hf, if_pos (by omega)]
  · intro h
    simp [retry_segment, h]

/-- Witness for C9 at `now = 200000` with a FAILED segment updated
47h59m earlier. -/
theorem can_retry_segment_correct_witness :
    (can_retry_segment 200000 ⟨SegmentStatus.FAILED, 200000 - (47 * 3600 + 59 * 60)⟩).1 = true ∧
    (can_retry_segment 200000 ⟨SegmentStatus.FAILED, 200000 - (48 * 3600 + 60)⟩).1 = false :=
  ⟨(can_retry_segment_correct 200000 ⟨SegmentStatus.FAILED, 200000 - (47 * 3600 + 59 * 60)⟩).2.2.2.2.1
      rfl (by decide),
   (can_retry_segment_correct 200000 ⟨SegmentStatus.FAILED, 200000 - (48 * 3600 + 60)⟩).2.2.2.2.2.1
      rfl (by decide)⟩

theorem pickBestGo_spec :
    ∀ (l : List VoterRow) (best : VoterRow),
      ∃ pre post, best :: l = pre ++ pickBestGo best (rowScore best) l :: post ∧
        (∀ r ∈ pre, rowScore r < rowScore (pickBestGo best (rowScore best) l)) ∧
        (∀ r ∈ post, rowScore r ≤ rowScore (pickBestGo best (rowScore best) l)) := by
  intro l
  induction l with
  | nil =>
      intro best
      exact ⟨[], [], rfl, by simp, by simp⟩
  | cons r rest ih =>
      intro best
      by_cases h : (rowScore best : Int) < (rowScore r : Int)
      · have hlt : rowScore best < rowScore r := by exact_mod_cast h
        have hstep : pickBestGo best (rowScore best) (r :: rest)
            = pickBestGo r (rowScore r) rest := by
          simp [pickBestGo, h]
        obtain ⟨pre, post, heq, hpre, hpost⟩ := ih r
        have hrres : rowScore r ≤ rowScore (pickBestGo r (rowScore r) rest) := by
          cases pre with
          | nil =>
              rw [List.nil_append] at heq
              injection heq with h1 h2
              exact le_of_eq (congrArg rowScore h1)
          | cons p pre2 =>
              rw [List.cons_append] at heq
              injection heq with h1 h2
              have hp := hpre p (List.mem_cons_self p pre2)
              rw [← h1] at hp
              exact le_of_lt hp
        refine ⟨best :: pre, post, ?_, ?_, ?_⟩
        · rw [hstep, List.cons_append, ← heq]
        · intro x hx
          rcases List.mem_cons.mp hx with rfl | hx
          · rw [hstep]; omega
          · rw [hstep]; exact hpre x hx
        · intro x hx
          rw [hstep]; exact hpost x hx
      · have hle : rowScore r ≤ rowScore best := by
          rw [not_lt] at h; exact_mod_cast h
        have hstep : pickBestGo best (rowScore best) (r :: rest)
            = pickBestGo best (rowScore best) rest := by
          simp [pickBestGo, h]
        obtain ⟨pre, post, heq, hpre, hpost⟩ := ih best
        cases pre with
        | nil =>
            rw [List.nil_append] at heq
            injection heq with h1 h2
            refine ⟨[], r :: rest, ?_, by simp, ?_⟩
            · rw [hstep, List.nil_append, ← h1]
            · intro x hx
              rcases List.mem_cons.mp hx with rfl | hx
              · rw [hstep, ← h1]; exact hle
              · rw [hstep, ← h1]
                have hx2 : x ∈ post := by rw [← h2]; exact hx
                have := hpost x hx2
                rw [← h1] at this
                exact this
        | cons p pre2 =>
            rw [List.cons_append] at heq
            injection heq with h1 h2
            have hbp : rowScore best < rowScore (pickBestGo best (rowScore best) rest) := by
              have hp := hpre p (List.mem_cons_self p pre2)
              rw [← h1] at hp
              exact hp
            refine ⟨best :: r :: pre2, post, ?_, ?_, ?_⟩
            · rw [hstep, List.cons_append, List.cons_append, ← h2]
            · intro x hx
              rcases List.mem_cons.mp hx with rfl | hx
              · rw [hstep]; exact hbp
              · rcases List.mem_cons.mp hx with rfl | hx
                · rw [hstep]; omega
                · rw [hstep]
                  exact hpre x (List.mem_cons_of_mem p hx)
            · intro x hx
              rw [hstep]; exact hpost x hx

theorem pickBest_spec (l : List VoterRow) (hl : l ≠ []) :
    ∃ b pre post, pickBest l = some b ∧ l = pre ++ b :: post ∧
      (∀ r ∈ pre, rowScore r < rowScore b) ∧ (∀ r ∈ post, rowScore r ≤ rowScore b) := by
  match l with
  | [] => exact absurd rfl hl
  | r :: rest =>
      obtain ⟨pre, post, heq, hpre, hpost⟩ := pickBestGo_spec rest r
      exact ⟨pickBestGo r (rowScore r) rest, pre, post, rfl, heq, hpre, hpost⟩

theorem mem_insertSorted {x n : Int} {l : List Int} :
    x ∈ insertSorted n l ↔ x = n ∨ x ∈ l := by
  induction l with
  | nil => simp [insertSorted]
  | cons m rest ih =>
      by_cases h : n ≤ m
      · simp [insertSorted, h]
      · simp only [insertSorted, if_neg h, List.mem_cons, ih]
        tauto

theorem mem_sortInts {x : Int} {l : List Int} : x ∈ sortInts l ↔ x ∈ l := by
  induction l with
  | nil => simp [sortInts]
  | cons n rest ih => simp [sortInts, mem_insertSorted, ih]

theorem pairwise_insertSorted {n : Int} {l : List Int} (h : l.Pairwise (· ≤ ·)) :
    (insertSorted n l).Pairwise (· ≤ ·) := by
  induction l with
  | nil => simp [insertSorted]
  | cons m rest ih =>
      rcases List.pairwise_cons.mp h with ⟨hm, hrest⟩
      by_cases hnm : n ≤ m
      · simp only [insertSorted, if_pos hnm]
        refine List.pairwise_cons.mpr ⟨?_, h⟩
        intro x hx
        rcases List.mem_cons.mp hx with rfl | hx
        · exact hnm
        · exact le_trans hnm (hm x hx)
      · simp only [insertSorted, if_neg hnm]
        refine List.pairwise_cons.mpr ⟨?_, ih hrest⟩
        intro x hx
        rcases mem_insertSorted.mp hx with rfl | hx
        · omega
        · exact hm x hx

theorem pairwise_sortInts (l : List Int) : (sortInts l).Pairwise (· ≤ ·) := by
  induction l with
  | nil => simp [sortInts]
  | cons n rest ih => exact pairwise_insertSorted ih

theorem nodup_insertSorted {n : Int} {l : List Int} (hn : n ∉ l) (h : l.Nodup) :
    (insertSorted n l).Nodup := by
  induction l with
  | nil => simp [insertSorted]
  | cons m rest ih =>
      rcases List.nodup_cons.mp h with ⟨hm, hrest⟩
      have hn2 : n ∉ rest := fun hc => hn (List.mem_cons_of_mem m hc)
      have hnm : n ≠ m := fun hc => hn (hc ▸ List.mem_cons_self m rest)
      by_cases hle : n ≤ m
      · simp only [insertSorted, if_pos hle]
        refine List.nodup_cons.mpr ⟨?_, h⟩
        intro hc
        rcases List.mem_cons.mp hc with h2 | h2
        · exact hnm h2
        · exact hn (List.mem_cons_of_mem m h2)
      · simp only [insertSorted, if_neg hle]
        refine List.nodup_cons.mpr ⟨?_, ih hn2 hrest⟩
        intro hc
        rcases mem_insertSorted.mp hc with h2 | h2
        · exact hnm h2.symm
        · exact hm h2

theorem nodup_sortInts {l : List Int} (h : l.Nodup) : (sortInts l).Nodup := by
  induction l with
  | nil => simp [sortInts]
  | cons n rest ih =>
      rcases List.nodup_cons.mp h with ⟨hn, hrest⟩
      exact nodup_insertSorted (fun hc => hn (mem_sortInts.mp hc)) (ih hrest)

/-- C6: for every input list and serial `s` whose group has more than one
row, the retained row `b` (the one `pickBest` selects and the output of the
Reconciler contains) maximises the completeness score over the whole group,
strictly beats every earlier duplicate, and weakly beats every later one —
i.e. it is the first-seen row of maximal score, independent of how the other
duplicates are ordered. -/
theorem reconciler_keeps_most_complete (all_rows : List VoterRow) (s : Int)
    (hdup : 1 < (groupRows all_rows s).length) :
    ∃ b pre post,
      pickBest (groupRows all_rows s) = some b ∧
      groupRows all_rows s = pre ++ b :: post ∧
      (∀ r ∈ groupRows all_rows s, rowScore r ≤ rowScore b) ∧
      (∀ r ∈ pre, rowScore r < rowScore b) ∧
      (∀ r ∈ post, rowScore r ≤ rowScore b) ∧
      b ∈ _deduplicate_and_validate_voters all_rows := by
  have hne : groupRows all_rows s ≠ [] := by
    intro hc
    rw [hc] at hdup
    simp at hdup
  obtain ⟨b, pre, post, hpick, heq, hpre, hpost⟩ := pickBest_spec _ hne
  have hmax : ∀ r ∈ groupRows all_rows s, rowScore r ≤ rowScore b := by
    intro r hr
    rw [heq] at hr
    rcases List.mem_append.mp hr with h | h
    · exact le_of_lt (hpre r h)
    · rcases List.mem_cons.mp h with rfl | h
      · exact le_refl _
      · exact hpost r h
  refine ⟨b, pre, post, hpick, heq, hmax, hpre, hpost, ?_⟩
  have hbmem : b ∈ groupRows all_rows s := by
    rw [heq]
    exact List.mem_append.mpr (Or.inr (List.mem_cons_self b post))
  rw [groupRows] at hbmem
  have hbser : serialOf b = some s := by
    have := (List.mem_filter.mp hbmem).2
    simpa using this
  have hball : b ∈ all_rows := (List.mem_filter.mp hbmem).1
  have hrows_ne : all_rows ≠ [] := List.ne_nil_of_mem hball
  have hsome_ne : all_rows.filter (fun r => (serialOf r).isSome) ≠ [] :=
    List.ne_nil_of_mem (List.mem_filter.mpr ⟨hball, by simp [hbser]⟩)
  have hs_mem : s ∈ sortInts (serialsOf all_rows).dedup := by
    rw [mem_sortInts, List.mem_dedup]
    exact List.mem_filterMap.mpr ⟨b, hball, hbser⟩
  unfold _deduplicate_and_validate_voters
  rw [if_neg hrows_ne, if_neg hsome_ne]
  exact List.mem_append.mpr (Or.inl (List.mem_filterMap.mpr ⟨s, hs_mem, hpick⟩))

/-- Witness for C6 on two serial-25 duplicates, one missing the age. -/
theorem reconciler_keeps_most_complete_witness :
    1 < (groupRows [dupRowA, dupRowB] 25).length ∧
    (∃ b pre post,
      pickBest (groupRows [dupRowA, dupRowB] 25) = some b ∧
      groupRows [dupRowA, dupRowB] 25 = pre ++ b :: post ∧
      (∀ r ∈ groupRows [dupRowA, dupRowB] 25, rowScore r ≤ rowScore b) ∧
      (∀ r ∈ pre, rowScore r < rowScore b) ∧
      (∀ r ∈ post, rowScore r ≤ rowScore b) ∧
      b ∈ _deduplicate_and_validate_voters [dupRowA, dupRowB]) :=
  ⟨by decide, reconciler_keeps_most_complete [dupRowA, dupRowB] 25 (by decide)⟩

theorem insertSorted_of_le {n : Int} {l : List Int} (h : ∀ x ∈ l, n ≤ x) :
    insertSorted n l = n :: l := by
  cases l with
  | nil => rfl
  | cons m rest =>
      have hm : n ≤ m := h m (List.mem_cons_self m rest)
      simp [insertSorted, hm]

theorem sortInts_of_pairwise {l : List Int} (h : l.Pairwise (· ≤ ·)) :
    sortInts l = l := by
  induction l with
  | nil => rfl
  | cons n rest ih =>
      rcases List.pairwise_cons.mp h with ⟨hn, hrest⟩
      show insertSorted n (sortInts rest) = n :: rest
      rw [ih hrest, insertSorted_of_le hn]

theorem filterMap_congr_mem {α β : Type} {f g : α → Option β} :
    ∀ {l : List α}, (∀ x ∈ l, f x = g x) → l.filterMap f = l.filterMap g := by
  intro l
  induction l with
  | nil => intro _; rfl
  | cons a rest ih =>
      intro h
      rw [List.filterMap_cons, List.filterMap_cons, h a (List.mem_cons_self a rest),
        ih (fun x hx => h x (List.mem_cons_of_mem a hx))]

theorem pick_group_some {rows : List VoterRow} {s : Int} (h : s ∈ serialsOf rows) :
    ∃ b, pickBest (groupRows rows s) = some b ∧ serialOf b = some s ∧ b ∈ rows := by
  obtain ⟨r, hr, hser⟩ := List.mem_filterMap.mp h
  have hg : r ∈ groupRows rows s := List.mem_filter.mpr ⟨hr, by simp [hser]⟩
  obtain ⟨b, pre, post, hpick, heq, h1, h2⟩ := pickBest_spec _ (List.ne_nil_of_mem hg)
  have hbmem : b ∈ groupRows rows s := by
    rw [heq]
    exact List.mem_append.mpr (Or.inr (List.mem_cons_self b post))
  rw [groupRows] at hbmem
  refine ⟨b, hpick, ?_, (List.mem_filter.mp hbmem).1⟩
  have := (List.mem_filter.mp hbmem).2
  simpa using this

theorem serials_filterMap_pick (rows : List VoterRow) :
    ∀ keys : List Int, (∀ s ∈ keys, s ∈ serialsOf rows) →
      serialsOf (keys.filterMap (fun s => pickBest (groupRows rows s))) = keys := by
  intro keys
  induction keys with
  | nil => intro _; rfl
  | cons t keys ih =>
      intro hsub
      obtain ⟨b, hpick, hser, _⟩ := pick_group_some (hsub t (List.mem_cons_self t keys))
      have ihk := ih (fun s hs => hsub s (List.mem_cons_of_mem t hs))
      simp only [serialsOf] at ihk ⊢
      rw [List.filterMap_cons, hpick]
      rw [List.filterMap_cons, hser, ihk]

theorem members_filterMap_pick {rows : List VoterRow} {keys : List Int}
    {r : VoterRow}
    (hr : r ∈ keys.filterMap (fun s => pickBest (groupRows rows s))) :
    ∃ u ∈ keys, pickBest (groupRows rows u) = some r := by
  obtain ⟨u, hu, hpick⟩ := List.mem_filterMap.mp hr
  exact ⟨u, hu, hpick⟩

theorem pick_mem_group {rows : List VoterRow} {s : Int} {b : VoterRow}
    (h : pickBest (groupRows rows s) = some b) : serialOf b = some s := by
  have hne : groupRows rows s ≠ [] := by
    intro hc
    rw [hc] at h
    exact Option.noConfusion h
  obtain ⟨b2, pre, post, hpick, heq, _, _⟩ := pickBest_spec _ hne
  rw [h] at hpick
  injection hpick with hb2
  subst hb2
  have hbmem : b ∈ groupRows rows s := by
    rw [heq]
    exact List.mem_append.mpr (Or.inr (List.mem_cons_self b post))
  rw [groupRows] at hbmem
  have := (List.mem_filter.mp hbmem).2
  simpa using this

theorem filter_filterMap_keyed {rows : List VoterRow} :
    ∀ {keys : List Int}, keys.Nodup →
      ∀ s ∈ keys, ∀ bs, pickBest (groupRows rows s) = some bs →
        (keys.filterMap (fun t => pickBest (groupRows rows t))).filter
            (fun r => decide (serialOf r = some s)) = [bs] := by
  intro keys
  induction keys with
  | nil =>
      intro _ s hs
      cases hs
  | cons t keys ih =>
      intro hnd s hs bs hbs
      rcases List.nodup_cons.mp hnd with ⟨htk, hndk⟩
      rcases List.mem_cons.mp hs with rfl | hs2
      · rw [List.filterMap_cons, hbs]
        have hserbs : serialOf bs = some s := pick_mem_group hbs
        rw [List.filter_cons]
        rw [if_pos (by simp [hserbs])]
        have hrest : (keys.filterMap (fun t => pickBest (groupRows rows t))).filter
            (fun r => decide (serialOf r = some s)) = [] := by
          rw [List.filter_eq_nil_iff]
          intro r hr
          obtain ⟨u, hu, hpick⟩ := members_filterMap_pick hr
          have hser : serialOf r = some u := pick_mem_group hpick
          have hus : u ≠ s := fun hc => htk (hc ▸ hu)
          simp [hser, hus]
        rw [hrest]
      · have hts : t ≠ s := fun hc => htk (hc ▸ hs2)
        rw [List.filterMap_cons]
        match hpt : pickBest (groupRows rows t) with
        | Option.none => exact ih hndk s hs2 bs hbs
        | some bt =>
            have hserbt : serialOf bt = some t := pick_mem_group hpt
            rw [List.filter_cons, if_neg (by simp [hserbt, hts])]
            exact ih hndk s hs2 bs hbs

/-- C7: the Reconciler is idempotent — applying
`_deduplicate_and_validate_voters` to its own output returns the output
unchanged, with no further deduplication or reordering. -/
theorem reconciler_idempotent (all_rows : List VoterRow) :
    _deduplicate_and_validate_voters (_deduplicate_and_validate_voters all_rows)
      = _deduplicate_and_validate_voters all_rows := by
  by_cases h0 : all_rows = []
  · subst h0
    simp [_deduplicate_and_validate_voters]
  · by_cases h1 : all_rows.filter (fun r => (serialOf r).isSome) = []
    · have hall : ∀ r ∈ all_rows, (serialOf r).isNone = true := by
        intro r hr
        have := List.filter_eq_nil_iff.mp h1 r hr
        simp only [Bool.not_eq_true] at this
        simp [Option.isNone_iff_eq_none, ← Option.not_isSome_iff_eq_none, this]
      have hD : _deduplicate_and_validate_voters all_rows = all_rows := by
        unfold _deduplicate_and_validate_voters
        rw [if_neg h0, if_pos h1]
        exact List.filter_eq_self.mpr hall
      rw [hD]
      exact hD
    · -- main branch
      have hD : _deduplicate_and_validate_voters all_rows =
          (sortInts (serialsOf all_rows).dedup).filterMap
              (fun s => pickBest (groupRows all_rows s))
            ++ all_rows.filter (fun r => (serialOf r).isNone) := by
        unfold _deduplicate_and_validate_voters
        rw [if_neg h0, if_neg h1]
      set keys := sortInts (serialsOf all_rows).dedup with hkeysdef
      set part1 := keys.filterMap (fun s => pickBest (groupRows all_rows s)) with hpart1def
      set part2 := all_rows.filter (fun r => (serialOf r).isNone) with hpart2def
      have hkeys_sub : ∀ s ∈ keys, s ∈ serialsOf all_rows := by
        intro s hs
        rw [hkeysdef, mem_sortInts, List.mem_dedup] at hs
        exact hs
      have hkeys_nodup : keys.Nodup := nodup_sortInts (List.nodup_dedup _)
      have hkeys_sorted : keys.Pairwise (· ≤ ·) := pairwise_sortInts _
      have hserials1 : serialsOf part1 = keys := serials_filterMap_pick all_rows keys hkeys_sub
      have hpart2none : ∀ r ∈ part2, serialOf r = Option.none := by
        intro r hr
        have := (List.mem_filter.mp hr).2
        simpa [Option.isNone_iff_eq_none] using this
      have hserials2 : serialsOf part2 = [] := by
        rw [serialsOf, List.filterMap_eq_nil_iff]
        exact hpart2none
      have hserialsout : serialsOf (part1 ++ part2) = keys := by
        rw [serialsOf, List.filterMap_append]
        rw [serialsOf] at hserials1 hserials2
        rw [hserials1, hserials2, List.append_nil]
      -- keys is non-empty because some row has a parsable serial
      have hkeys_ne : keys ≠ [] := by
        obtain ⟨r, hr⟩ := List.exists_mem_of_ne_nil _ h1
        have hrs : (serialOf r).isSome = true := (List.mem_filter.mp hr).2
        obtain ⟨s, hs⟩ := Option.isSome_iff_exists.mp hrs
        have : s ∈ keys := by
          rw [hkeysdef, mem_sortInts, List.mem_dedup]
          exact List.mem_filterMap.mpr ⟨r, (List.mem_filter.mp hr).1, hs⟩
        exact List.ne_nil_of_mem this
      have hpart1_ne : part1 ≠ [] := by
        intro hc
        rw [hc] at hserials1
        have hke : keys = [] := by
          rw [← hserials1]
          rfl
        exact hkeys_ne hke
      have hout_ne : part1 ++ part2 ≠ [] := by
        intro hc
        rcases List.append_eq_nil.mp hc with ⟨hc1, _⟩
        exact hpart1_ne hc1
      have hpart1some : ∀ r ∈ part1, (serialOf r).isSome = true := by
        intro r hr
        obtain ⟨u, _, hpick⟩ := members_filterMap_pick hr
        rw [pick_mem_group hpick]
        rfl
      have hfilter_some : (part1 ++ part2).filter (fun r => (serialOf r).isSome) = part1 := by
        rw [List.filter_append]
        rw [List.filter_eq_self.mpr hpart1some]
        rw [List.filter_eq_nil_iff.mpr (by
          intro r hr
          simp [hpart2none r hr])]
        exact List.append_nil part1
      have hfilter_none : (part1 ++ part2).filter (fun r => (serialOf r).isNone) = part2 := by
        rw [List.filter_append]
        rw [List.filter_eq_nil_iff.mpr (by
          intro r hr
          have := hpart1some r hr
          simp only [Bool.not_eq_true, Option.isNone_eq_false_iff]
          exact this)]
        rw [List.filter_eq_self.mpr (by
          intro r hr
          simp [hpart2none r hr])]
        exact List.nil_append part2
      have hgroup_out : ∀ s ∈ keys, ∀ bs, pickBest (groupRows all_rows s) = some bs →
          groupRows (part1 ++ part2) s = [bs] := by
        intro s hs bs hbs
        rw [groupRows, List.filter_append]
        have hp2 : part2.filter (fun r => decide (serialOf r = some s)) = [] := by
          rw [List.filter_eq_nil_iff]
          intro r hr
          simp [hpart2none r hr]
        rw [hp2, List.append_nil]
        exact filter_filterMap_keyed hkeys_nodup s hs bs hbs
      -- now compute the second application
      rw [hD]
      have hD2 : _deduplicate_and_validate_voters (part1 ++ part2) =
          (sortInts (serialsOf (part1 ++ part2)).dedup).filterMap
              (fun s => pickBest (groupRows (part1 ++ part2) s))
            ++ (part1 ++ part2).filter (fun r => (serialOf r).isNone) := by
        unfold _deduplicate_and_validate_voters
        rw [if_neg hout_ne, if_neg (by rw [hfilter_some]; exact hpart1_ne)]
      rw [hD2, hfilter_none, hserialsout,
        List.dedup_eq_self.mpr hkeys_nodup, sortInts_of_pairwise hkeys_sorted]
      congr 1
      apply filterMap_congr_mem
      intro s hs
      obtain ⟨b, hpick, _, _⟩ := pick_group_some (hkeys_sub s hs)
      rw [hgroup_out s hs b hpick, hpick]
      rfl

theorem anyUnfinished_eq_false {segs : List SegmentRow}
    (h : ∀ s ∈ segs, s.status ≠ SegmentStatus.PENDING ∧ s.status ≠ SegmentStatus.RUNNING) :
    anyUnfinished segs = false := by
  rw [anyUnfinished, List.any_eq_false]
  intro s hs
  rcases h s hs with ⟨h1, h2⟩
  simp [segInProgress, h1, h2]

theorem allDoneB_iff {segs : List SegmentRow} :
    allDoneB segs = true ↔ ∀ s ∈ segs, s.status = SegmentStatus.DONE := by
  simp [allDoneB, List.all_eq_true]

theorem anyDoneB_iff {segs : List SegmentRow} :
    anyDoneB segs = true ↔ ∃ s ∈ segs, s.status = SegmentStatus.DONE := by
  simp [anyDoneB, List.any_eq_true]

theorem anyFailedB_iff {segs : List SegmentRow} :
    anyFailedB segs = true ↔ ∃ s ∈ segs, s.status = SegmentStatus.FAILED := by
  simp [anyFailedB, List.any_eq_true]

theorem hasHeaderB_iff {segs : List SegmentRow} :
    hasHeaderB segs = true ↔
      ∃ s ∈ segs, s.segment_type = SegmentType.HEADER ∧ s.status = SegmentStatus.DONE := by
  simp [hasHeaderB, List.any_eq_true]

theorem hasListB_iff {segs : List SegmentRow} :
    hasListB segs = true ↔
      ∃ s ∈ segs, s.segment_type = SegmentType.LIST_CHUNK ∧ s.status = SegmentStatus.DONE := by
  simp [hasListB, List.any_eq_true]

theorem anyDone_iff_hasHL {segs : List SegmentRow} :
    anyDoneB segs = true ↔ (hasHeaderB segs || hasListB segs) = true := by
  rw [anyDoneB_iff, Bool.or_eq_true, hasHeaderB_iff, hasListB_iff]
  constructor
  · rintro ⟨s, hs, hdone⟩
    cases htype : s.segment_type with
    | HEADER => exact Or.inl ⟨s, hs, htype, hdone⟩
    | LIST_CHUNK => exact Or.inr ⟨s, hs, htype, hdone⟩
  · rintro (⟨s, hs, _, hdone⟩ | ⟨s, hs, _, hdone⟩) <;> exact ⟨s, hs, hdone⟩

theorem allDone_no_failed {segs : List SegmentRow} (h : allDoneB segs = true) :
    anyFailedB segs = false := by
  rw [anyFailedB, List.any_eq_false]
  intro s hs
  have := allDoneB_iff.mp h s hs
  simp [this]

theorem recompute_all_terminal (run : RunRow) (segs : List SegmentRow) (now : Int)
    (hns : run.status ≠ ExtractionRunStatus.SKIPPED)
    (hnc : run.status ≠ ExtractionRunStatus.COMPLETED)
    (hterm : ∀ s ∈ segs, s.status ≠ SegmentStatus.PENDING ∧ s.status ≠ SegmentStatus.RUNNING) :
    recomputeRunStatus run segs now =
      (if allDoneB segs && hasHeaderB segs && hasListB segs && !anyFailedB segs then
        { run with status := ExtractionRunStatus.COMPLETED,
                   finished_at := some (run.finished_at.getD now) }
      else if anyDoneB segs && (hasHeaderB segs || hasListB segs) then
        { run with status := ExtractionRunStatus.PARTIAL,
                   finished_at := some (run.finished_at.getD now) }
      else if anyFailedB segs && !anyDoneB segs then
        { run with status := ExtractionRunStatus.FAILED,
                   error_message := some (failedMsg (segs.filter
                     (fun s => s.status == SegmentStatus.FAILED)).length),
                   finished_at := some (run.finished_at.getD now) }
      else run) := by
  unfold recomputeRunStatus
  rw [if_neg (fun h => Or.elim h hns hnc),
      if_neg (by simp [anyUnfinished_eq_false hterm])]

/-- C3 (amended): the recomputation is sticky on SKIPPED/COMPLETED runs; on
any other run, if some segment is PENDING or RUNNING the run status lands in
{PENDING, RUNNING} with `finished_at` cleared; and once all segments are
terminal with at least one DONE or FAILED segment, the status lands in
{COMPLETED, PARTIAL, FAILED}. -/
theorem run_status_invariant (run : RunRow) (segs : List SegmentRow) (now : Int) :
    (run.status = ExtractionRunStatus.SKIPPED ∨ run.status = ExtractionRunStatus.COMPLETED →
      recomputeRunStatus run segs now = run) ∧
    (run.status ≠ ExtractionRunStatus.SKIPPED → run.status ≠ ExtractionRunStatus.COMPLETED →
      (∃ s ∈ segs, s.status = SegmentStatus.PENDING ∨ s.status = SegmentStatus.RUNNING) →
      ((recomputeRunStatus run segs now).status = ExtractionRunStatus.PENDING ∨
        (recomputeRunStatus run segs now).status = ExtractionRunStatus.RUNNING) ∧
      (recomputeRunStatus run segs now).finished_at = Option.none) ∧
    (run.status ≠ ExtractionRunStatus.SKIPPED → run.status ≠ ExtractionRunStatus.COMPLETED →
      (∀ s ∈ segs, s.status ≠ SegmentStatus.PENDING ∧ s.status ≠ SegmentStatus.RUNNING) →
      (∃ s ∈ segs, s.status = SegmentStatus.DONE ∨ s.status = SegmentStatus.FAILED) →
      ((recomputeRunStatus run segs now).status = ExtractionRunStatus.COMPLETED ∨
        (recomputeRunStatus run segs now).status = ExtractionRunStatus.PARTIAL ∨
        (recomputeRunStatus run segs now).status = ExtractionRunStatus.FAILED)) := by
  refine ⟨?_, ?_, ?_⟩
  · intro h
    unfold recomputeRunStatus
    rw [if_pos h]
  · intro hns hnc hex
    have hun : anyUnfinished segs = true := by
      obtain ⟨s, hs, hps⟩ := hex
      rw [anyUnfinished, List.any_eq_true]
      refine ⟨s, hs, ?_⟩
      rcases hps with h | h <;> simp [segInProgress, h]
    unfold recomputeRunStatus
    rw [if_neg (fun h => Or.elim h hns hnc), if_pos hun]
    exact ⟨Or.inr rfl, rfl⟩
  · intro hns hnc hterm hex
    have hrw := recompute_all_terminal run segs now hns hnc hterm
    by_cases had : anyDoneB segs = true
    · by_cases hc1 : (allDoneB segs && hasHeaderB segs && hasListB segs
          && !anyFailedB segs) = true
      · rw [hrw, if_pos hc1]
        exact Or.inl rfl
      · have hc2 : (anyDoneB segs && (hasHeaderB segs || hasListB segs)) = true := by
          simp only [Bool.and_eq_true]
          exact ⟨had, anyDone_iff_hasHL.mp had⟩
        rw [hrw, if_neg hc1, if_pos hc2]
        exact Or.inr (Or.inl rfl)
    · have hadf : anyDoneB segs = false := by
        cases hv : anyDoneB segs
        · rfl
        · exact absurd hv had
      obtain ⟨s0, hs0, hd | hf⟩ := hex
      · exact absurd (anyDoneB_iff.mpr ⟨s0, hs0, hd⟩) had
      · have hfail : anyFailedB segs = true := anyFailedB_iff.mpr ⟨s0, hs0, hf⟩
        have hc1f : ¬ (allDoneB segs && hasHeaderB segs && hasListB segs
            && !anyFailedB segs) = true := by
          simp only [Bool.and_eq_true]
          rintro ⟨⟨⟨hadn, _⟩, _⟩, _⟩
          have h1 := allDoneB_iff.mp hadn s0 hs0
          rw [hf] at h1
          exact SegmentStatus.noConfusion h1
        have hc2f : ¬ (anyDoneB segs && (hasHeaderB segs || hasListB segs)) = true := by
          simp [hadf]
        have hc3 : (anyFailedB segs && !anyDoneB segs) = true := by
          simp [hfail, hadf]
        rw [hrw, if_neg hc1f, if_neg hc2f, if_pos hc3]
        exact Or.inr (Or.inr rfl)

/-- Counterexample to C3 as stated: a non-SKIPPED RUNNING run whose only
segment is terminal (SKIPPED) keeps status RUNNING after recomputation, not
COMPLETED/PARTIAL/FAILED. -/
theorem run_status_invariant_counterexample :
    runRunning.status ≠ ExtractionRunStatus.SKIPPED ∧
    (∀ s ∈ [segSkipped], s.status ≠ SegmentStatus.PENDING ∧
      s.status ≠ SegmentStatus.RUNNING) ∧
    (recomputeRunStatus runRunning [segSkipped] 0).status ≠ ExtractionRunStatus.COMPLETED ∧
    (recomputeRunStatus runRunning [segSkipped] 0).status ≠ ExtractionRunStatus.PARTIAL ∧
    (recomputeRunStatus runRunning [segSkipped] 0).status ≠ ExtractionRunStatus.FAILED := by
  decide

/-- Witness for C3 (amended) on a PENDING run with a PENDING segment. -/
theorem run_status_invariant_witness :
    ((recomputeRunStatus runPending [segPending] 0).status = ExtractionRunStatus.PENDING ∨
      (recomputeRunStatus runPending [segPending] 0).status = ExtractionRunStatus.RUNNING) ∧
    (recomputeRunStatus runPending [segPending] 0).finished_at = Option.none :=
  (run_status_invariant runPending [segPending] 0).2.1 (by decide) (by decide)
    ⟨segPending, List.mem_singleton.mpr rfl, Or.inl rfl⟩

/-- C4: with all segments of a non-sticky run terminal, the run becomes
COMPLETED exactly when all segments are DONE with a DONE HEADER and at least
one DONE LIST_CHUNK present (so a header-only run can never COMPLETE); it
becomes PARTIAL when some segment is DONE but that bar is missed; and it
becomes FAILED with the error message when every segment FAILED. -/
theorem run_terminal_status_rule (run : RunRow) (segs : List SegmentRow) (now : Int)
    (hns : run.status ≠ ExtractionRunStatus.SKIPPED)
    (hnc : run.status ≠ ExtractionRunStatus.COMPLETED)
    (hterm : ∀ s ∈ segs, s.status ≠ SegmentStatus.PENDING ∧
      s.status ≠ SegmentStatus.RUNNING) :
    ((recomputeRunStatus run segs now).status = ExtractionRunStatus.COMPLETED ↔
      (∀ s ∈ segs, s.status = SegmentStatus.DONE) ∧
      (∃ s ∈ segs, s.segment_type = SegmentType.HEADER ∧ s.status = SegmentStatus.DONE) ∧
      (∃ s ∈ segs, s.segment_type = SegmentType.LIST_CHUNK ∧
        s.status = SegmentStatus.DONE)) ∧
    ((∃ s ∈ segs, s.status = SegmentStatus.DONE) →
      ¬((∀ s ∈ segs, s.status = SegmentStatus.DONE) ∧
        (∃ s ∈ segs, s.segment_type = SegmentType.HEADER ∧ s.status = SegmentStatus.DONE) ∧
        (∃ s ∈ segs, s.segment_type = SegmentType.LIST_CHUNK ∧
          s.status = SegmentStatus.DONE)) →
      (recomputeRunStatus run segs now).status = ExtractionRunStatus.PARTIAL) ∧
    (segs ≠ [] → (∀ s ∈ segs, s.status = SegmentStatus.FAILED) →
      (recomputeRunStatus run segs now).status = ExtractionRunStatus.FAILED ∧
      (recomputeRunStatus run segs now).error_message = some (failedMsg segs.length)) := by
  have hrw := recompute_all_terminal run segs now hns hnc hterm
  have hb1 : (allDoneB segs && hasHeaderB segs && hasListB segs && !anyFailedB segs) = true ↔
      ((∀ s ∈ segs, s.status = SegmentStatus.DONE) ∧
       (∃ s ∈ segs, s.segment_type = SegmentType.HEADER ∧ s.status = SegmentStatus.DONE) ∧
       (∃ s ∈ segs, s.segment_type = SegmentType.LIST_CHUNK ∧
         s.status = SegmentStatus.DONE)) := by
    constructor
    · intro h
      simp only [Bool.and_eq_true] at h
      exact ⟨allDoneB_iff.mp h.1.1.1, hasHeaderB_iff.mp h.1.1.2, hasListB_iff.mp h.1.2⟩
    · rintro ⟨h1, h2, h3⟩
      have hf := allDone_no_failed (allDoneB_iff.mpr h1)
      simp only [Bool.and_eq_true]
      exact ⟨⟨⟨allDoneB_iff.mpr h1, hasHeaderB_iff.mpr h2⟩, hasListB_iff.mpr h3⟩,
        by simp [hf]⟩
  refine ⟨?_, ?_, ?_⟩
  · constructor
    · intro hcomp
      by_contra hnp
      have hc1f : ¬ (allDoneB segs && hasHeaderB segs && hasListB segs
          && !anyFailedB segs) = true := fun hc => hnp (hb1.mp hc)
      rw [hrw, if_neg hc1f] at hcomp
      by_cases hc2 : (anyDoneB segs && (hasHeaderB segs || hasListB segs)) = true
      · rw [if_pos hc2] at hcomp
        simp at hcomp
      · rw [if_neg hc2] at hcomp
        by_cases hc3 : (anyFailedB segs && !anyDoneB segs) = true
        · rw [if_pos hc3] at hcomp
          simp at hcomp
        · rw [if_neg hc3] at hcomp
          exact hnc hcomp
    · intro hp
      rw [hrw, if_pos (hb1.mpr hp)]
  · intro hd hnp
    have hc1f : ¬ (allDoneB segs && hasHeaderB segs && hasListB segs
        && !anyFailedB segs) = true := fun hc => hnp (hb1.mp hc)
    have had := anyDoneB_iff.mpr hd
    have hc2 : (anyDoneB segs && (hasHeaderB segs || hasListB segs)) = true := by
      simp only [Bool.and_eq_true]
      exact ⟨had, anyDone_iff_hasHL.mp had⟩
    rw [hrw, if_neg hc1f, if_pos hc2]
  · intro hne hall
    obtain ⟨s0, hs0⟩ := List.exists_mem_of_ne_nil segs hne
    have hfail : anyFailedB segs = true := anyFailedB_iff.mpr ⟨s0, hs0, hall s0 hs0⟩
    have hnod : anyDoneB segs = false := by
      rw [anyDoneB, List.any_eq_false]
      intro s hs
      simp [hall s hs]
    have hc1f : ¬ (allDoneB segs && hasHeaderB segs && hasListB segs
        && !anyFailedB segs) = true := by
      simp only [Bool.and_eq_true]
      rintro ⟨⟨⟨hadn, _⟩, _⟩, _⟩
      have h1 := allDoneB_iff.mp hadn s0 hs0
      rw [hall s0 hs0] at h1
      exact SegmentStatus.noConfusion h1
    have hc2f : ¬ (anyDoneB segs && (hasHeaderB segs || hasListB segs)) = true := by
      simp [hnod]
    have hc3 : (anyFailedB segs && !anyDoneB segs) = true := by
      simp [hfail, hnod]
    have hflt : segs.filter (fun s => s.status == SegmentStatus.FAILED) = segs :=
      List.filter_eq_self.mpr (fun s hs => by simp [hall s hs])
    rw [hrw, if_neg hc1f, if_neg hc2f, if_pos hc3, hflt]
    exact ⟨rfl, rfl⟩

/-- Witness for C4: a DONE header plus a DONE list chunk yields COMPLETED. -/
theorem run_terminal_status_rule_witness :
    (recomputeRunStatus runC4 [segHdrDone, segListDone] 0).status
      = ExtractionRunStatus.COMPLETED :=
  ((run_terminal_status_rule runC4 [segHdrDone, segListDone] 0 (by decide) (by decide)
      (by decide)).1).mpr (by decide)

theorem dedup_ne_nil {rows : List VoterRow} (h : rows ≠ []) :
    _deduplicate_and_validate_voters rows ≠ [] := by
  unfold _deduplicate_and_validate_voters
  rw [if_neg h]
  by_cases h1 : rows.filter (fun r => (serialOf r).isSome) = []
  · rw [if_pos h1]
    have hall : ∀ r ∈ rows, (serialOf r).isNone = true := by
      intro r hr
      have := List.filter_eq_nil_iff.mp h1 r hr
      simp only [Bool.not_eq_true, Option.not_isSome, Option.isNone_iff_eq_none] at this
      simp [this]
    rw [List.filter_eq_self.mpr hall]
    exact h
  · rw [if_neg h1]
    intro hc
    rcases List.append_eq_nil.mp hc with ⟨hc1, _⟩
    obtain ⟨r, hr⟩ := List.exists_mem_of_ne_nil _ h1
    have hrs : (serialOf r).isSome = true := (List.mem_filter.mp hr).2
    obtain ⟨s, hs⟩ := Option.isSome_iff_exists.mp hrs
    have hsk : s ∈ sortInts (serialsOf rows).dedup := by
      rw [mem_sortInts, List.mem_dedup]
      exact List.mem_filterMap.mpr ⟨r, (List.mem_filter.mp hr).1, hs⟩
    have hser := serials_filterMap_pick rows (sortInts (serialsOf rows).dedup)
      (fun t ht => by rwa [mem_sortInts, List.mem_dedup] at ht)
    rw [hc1] at hser
    have hkeysnil : sortInts (serialsOf rows).dedup = [] := by
      rw [← hser]
      rfl
    rw [hkeysnil] at hsk
    exact absurd hsk (List.not_mem_nil s)

theorem upd_run_fields (w : World) (rid : Nat) (now : Int) :
    (_update_extraction_run_status w rid now).segments = w.segments ∧
    (_update_extraction_run_status w rid now).voters = w.voters ∧
    (_update_extraction_run_status w rid now).headers = w.headers := by
  unfold _update_extraction_run_status
  cases h : findRun w rid <;> simp [h]

theorem findRun_id {w : World} {rid : Nat} {run : RunRow} (h : findRun w rid = some run) :
    run.id = rid := by
  have := List.find?_some h
  simpa using this

theorem recompute_preserves (run : RunRow) (segs : List SegmentRow) (now : Int) :
    (recomputeRunStatus run segs now).id = run.id ∧
    (recomputeRunStatus run segs now).document_id = run.document_id ∧
    (run.status ≠ ExtractionRunStatus.SKIPPED →
      (recomputeRunStatus run segs now).status ≠ ExtractionRunStatus.SKIPPED) := by
  unfold recomputeRunStatus
  repeat' split
  all_goals
    first
      | exact ⟨rfl, rfl, fun h => h⟩
      | exact ⟨rfl, rfl, fun _ => by simp⟩

theorem find?_map_replace {rid : Nat} {updated : RunRow} (hid : updated.id = rid) :
    ∀ l : List RunRow,
      List.find? (fun r => r.id == rid) (l.map (fun r => if r.id == rid then updated else r))
        = (List.find? (fun r => r.id == rid) l).map (fun _ => updated) := by
  intro l
  induction l with
  | nil => rfl
  | cons r rest ih =>
      by_cases h : (r.id == rid) = true
      · rw [List.map_cons, if_pos h]
        simp [List.find?_cons, h, hid]
      · rw [List.map_cons, if_neg h, Bool.not_eq_true] at *
        simp only [List.find?_cons, h]
        exact ih

theorem findRun_upd {w : World} {rid : Nat} {run : RunRow} (now : Int)
    (h : findRun w rid = some run) :
    findRun (_update_extraction_run_status w rid now) rid
      = some (recomputeRunStatus run (runSegments w rid) now) := by
  unfold _update_extraction_run_status
  simp only [h]
  show List.find? (fun r => r.id == rid)
      (w.runs.map (fun r => if r.id == rid then
        recomputeRunStatus run (runSegments w rid) now else r))
    = some (recomputeRunStatus run (runSegments w rid) now)
  rw [find?_map_replace (by
    rw [(recompute_preserves run (runSegments w rid) now).1, findRun_id h]) w.runs]
  rw [show List.find? (fun r => r.id == rid) w.runs = some run from h]
  rfl

theorem collectListRows_eq_of_segments {w w2 : World} (h : w2.segments = w.segments)
    (rid : Nat) : collectListRows w2 rid = collectListRows w rid := by
  unfold collectListRows runSegments
  rw [h]

theorem merge_skip_eq {w : World} {rid : Nat} {run : RunRow} (now : Int)
    (hrun : findRun w rid = some run) (hsk : run.status = ExtractionRunStatus.SKIPPED) :
    _merge_segments_and_persist w rid now = w := by
  unfold _merge_segments_and_persist
  simp only [hrun]
  rw [if_pos hsk]

theorem merge_voters_spec {w : World} {rid : Nat} {run : RunRow} (now : Int)
    (hrun : findRun w rid = some run) (hns : run.status ≠ ExtractionRunStatus.SKIPPED) :
    (collectListRows w rid = [] →
      (_merge_segments_and_persist w rid now).voters = w.voters) ∧
    (collectListRows w rid ≠ [] →
      (_merge_segments_and_persist w rid now).voters =
        w.voters.filter (fun v => decide (v.document_id ≠ run.document_id)) ++
          (_deduplicate_and_validate_voters (collectListRows w rid)).map
            (toVoterModel run.document_id)) := by
  constructor
  · intro hempty
    unfold _merge_segments_and_persist
    simp only [hrun]
    rw [if_neg hns, if_pos hempty]
    exact (upd_run_fields w rid now).2.1
  · intro hne
    unfold _merge_segments_and_persist
    simp only [hrun]
    rw [if_neg hns, if_neg hne]
    have hmodels : (_deduplicate_and_validate_voters (collectListRows w rid)).map
        (toVoterModel run.document_id) ≠ [] := by
      intro hc
      exact dedup_ne_nil hne (List.map_eq_nil_iff.mp hc)
    rw [(upd_run_fields _ rid now).2.1, if_neg hmodels]

theorem merge_world_shape {w : World} {rid : Nat} {run : RunRow} (now : Int)
    (hrun : findRun w rid = some run) (hns : run.status ≠ ExtractionRunStatus.SKIPPED) :
    (_merge_segments_and_persist w rid now).segments = w.segments ∧
    (_merge_segments_and_persist w rid now).headers = w.headers ∧
    ∃ run2, findRun (_merge_segments_and_persist w rid now) rid = some run2 ∧
      run2.document_id = run.document_id ∧
      run2.status ≠ ExtractionRunStatus.SKIPPED := by
  unfold _merge_segments_and_persist
  simp only [hrun]
  rw [if_neg hns]
  by_cases hempty : collectListRows w rid = []
  · rw [if_pos hempty]
    refine ⟨(upd_run_fields w rid now).1, (upd_run_fields w rid now).2.2, ?_⟩
    refine ⟨recomputeRunStatus run (runSegments w rid) now, findRun_upd now hrun,
      (recompute_preserves run (runSegments w rid) now).2.1,
      (recompute_preserves run (runSegments w rid) now).2.2 hns⟩
  · rw [if_neg hempty]
    set w1 : World := { w with voters :=
      (w.voters.filter (fun v => decide (v.document_id ≠ run.document_id))) ++
        (if (_deduplicate_and_validate_voters (collectListRows w rid)).map
            (toVoterModel run.document_id) = [] then []
         else (_deduplicate_and_validate_voters (collectListRows w rid)).map
            (toVoterModel run.document_id)) } with hw1
    have hw1runs : findRun w1 rid = some run := hrun
    have hsegs1 : (_update_extraction_run_status w1 rid now).segments = w.segments :=
      (upd_run_fields w1 rid now).1
    have hheads1 : (_update_extraction_run_status w1 rid now).headers = w.headers :=
      (upd_run_fields w1 rid now).2.2
    refine ⟨hsegs1, hheads1, ?_⟩
    have hrs : runSegments w1 rid = runSegments w rid := rfl
    refine ⟨recomputeRunStatus run (runSegments w1 rid) now, findRun_upd now hw1runs,
      (recompute_preserves run (runSegments w1 rid) now).2.1,
      (recompute_preserves run (runSegments w1 rid) now).2.2 hns⟩

/-- `toVoterModel` stamps the target document id. -/
theorem toVoterModel_doc (d : Nat) (row : VoterRow) : (toVoterModel d row).document_id = d :=
  rfl

/-- C5 (amended): for a SKIPPED run the merge changes nothing; for any other
run, when at least one voter row was collected from the DONE list segments
the document's Voter rows are fully replaced by the Reconciler's validated
set, and re-running the merge on its own output leaves the voter set
unchanged; but when no rows were collected the existing Voter rows are left
untouched (no delete happens). -/
theorem merge_persist_correct (w : World) (rid : Nat) (run : RunRow) (now : Int)
    (hrun : findRun w rid = some run) :
    (run.status = ExtractionRunStatus.SKIPPED →
      _merge_segments_and_persist w rid now = w) ∧
    (run.status ≠ ExtractionRunStatus.SKIPPED → collectListRows w rid = [] →
      (_merge_segments_and_persist w rid now).voters = w.voters) ∧
    (run.status ≠ ExtractionRunStatus.SKIPPED → collectListRows w rid ≠ [] →
      (_merge_segments_and_persist w rid now).voters =
        w.voters.filter (fun v => decide (v.document_id ≠ run.document_id)) ++
          (_deduplicate_and_validate_voters (collectListRows w rid)).map
            (toVoterModel run.document_id)) ∧
    (run.status ≠ ExtractionRunStatus.SKIPPED →
      (_merge_segments_and_persist (_merge_segments_and_persist w rid now) rid now).voters
        = (_merge_segments_and_persist w rid now).voters) := by
  refine ⟨fun hsk => merge_skip_eq now hrun hsk,
    fun hns => (merge_voters_spec now hrun hns).1,
    fun hns => (merge_voters_spec now hrun hns).2, ?_⟩
  intro hns
  obtain ⟨hsegs, _, run2, hrun2, hdoc2, hns2⟩ := merge_world_shape now hrun hns
  have hcoll : collectListRows (_merge_segments_and_persist w rid now) rid
      = collectListRows w rid := collectListRows_eq_of_segments hsegs rid
  by_cases hempty : collectListRows w rid = []
  · exact (merge_voters_spec now hrun2 hns2).1 (hcoll.trans hempty)
  · have h1 := (merge_voters_spec now hrun hns).2 hempty
    have h2 := (merge_voters_spec now hrun2 hns2).2 (by rw [hcoll]; exact hempty)
    rw [h2, hcoll, hdoc2, h1]
    have hothers : (w.voters.filter (fun v => decide (v.document_id ≠ run.document_id))).filter
        (fun v => decide (v.document_id ≠ run.document_id)) =
        w.voters.filter (fun v => decide (v.document_id ≠ run.document_id)) :=
      List.filter_eq_self.mpr (fun v hv => (List.mem_filter.mp hv).2)
    have hmodels : ((_deduplicate_and_validate_voters (collectListRows w rid)).map
        (toVoterModel run.document_id)).filter
          (fun v => decide (v.document_id ≠ run.document_id)) = [] := by
      rw [List.filter_eq_nil_iff]
      intro v hv
      obtain ⟨row, _, hrow⟩ := List.mem_map.mp hv
      rw [← hrow, toVoterModel_doc]
      simp
    rw [List.filter_append, hothers, hmodels, List.append_nil]

/-- Witness for C5 (amended): with collected rows present, the document's
voters are fully replaced by the validated set. -/
theorem merge_persist_correct_witness :
    (_merge_segments_and_persist w5good 7 0).voters =
      w5good.voters.filter (fun v => decide (v.document_id ≠ runC5.document_id)) ++
        (_deduplicate_and_validate_voters (collectListRows w5good 7)).map
          (toVoterModel runC5.document_id) :=
  (merge_persist_correct w5good 7 runC5 0 (by decide)).2.2.1 (by decide) (by decide)

/-- Counterexample to C5 as stated: for a non-SKIPPED run whose DONE list
segments produced no rows, the validated set is empty but the document's
existing Voter rows are NOT deleted — the merge leaves them in place instead
of replacing them with the empty set. -/
theorem merge_persist_counterexample :
    findRun w5cex 1 = some runC5cex ∧
    runC5cex.status ≠ ExtractionRunStatus.SKIPPED ∧
    collectListRows w5cex 1 = [] ∧
    _deduplicate_and_validate_voters (collectListRows w5cex 1) = [] ∧
    (_merge_segments_and_persist w5cex 1 0).voters = [cexVoter] ∧
    (_merge_segments_and_persist w5cex 1 0).voters ≠ [] := by
  decide

theorem check_dup_true {w : World} {hj : HeaderJson} {doc : Nat}
    (hfires : firesGuard hj = true)
    (hdup : ∃ h0 ∈ w.headers, matchesTriple hj h0 = true ∧ h0.document_id ≠ doc) :
    _check_duplicate_document w hj doc = (true, some (dupErrorMsg hj)) := by
  have hany : (w.headers.any (fun h => matchesTriple hj h && h.document_id != doc)) = true := by
    rw [List.any_eq_true]
    obtain ⟨h0, hmem, hm, hne⟩ := hdup
    refine ⟨h0, hmem, ?_⟩
    simp [hm, hne]
  unfold _check_duplicate_document
  rw [if_pos hfires, if_pos hany]

theorem check_dup_false_no_match {w : World} {hj : HeaderJson} {doc : Nat}
    (hnodup : ∀ h0 ∈ w.headers, matchesTriple hj h0 = true → h0.document_id = doc) :
    _check_duplicate_document w hj doc = (false, Option.none) := by
  unfold _check_duplicate_document
  by_cases hfires : firesGuard hj = true
  · rw [if_pos hfires, if_neg ?hany]
    case hany =>
      rw [List.any_eq_true]
      rintro ⟨h0, hmem, hcond⟩
      simp only [Bool.and_eq_true, bne_iff_ne] at hcond
      exact hcond.2 (hnodup h0 hmem hcond.1)
  · rw [if_neg hfires]

theorem check_dup_false_guard {hj : HeaderJson} (hng : firesGuard hj = false)
    (w : World) (doc : Nat) :
    _check_duplicate_document w hj doc = (false, Option.none) := by
  unfold _check_duplicate_document
  rw [if_neg (by simp [hng])]

theorem skip_runs_headers (w : World) (hj : HeaderJson) (cur : Nat) (msg : String)
    (now : Int) : (_skip_duplicate_runs w hj cur msg now).headers = w.headers := by
  unfold _skip_duplicate_runs
  split <;> rfl

theorem skip_runs_run_mem {w : World} {hj : HeaderJson} {cur : Nat} {msg : String}
    {now : Int} (hfires : firesGuard hj = true) {r : RunRow} (hr : r ∈ w.runs)
    (hdoc : r.document_id ∈ tripleDocIds w hj cur)
    (hst : r.status = ExtractionRunStatus.PENDING ∨ r.status = ExtractionRunStatus.RUNNING) :
    { r with status := ExtractionRunStatus.SKIPPED, error_message := some msg,
             finished_at := some (r.finished_at.getD now) }
      ∈ (_skip_duplicate_runs w hj cur msg now).runs := by
  unfold _skip_duplicate_runs
  rw [if_pos hfires]
  have hcond : runShouldSkip (tripleDocIds w hj cur) r = true := by
    rw [runShouldSkip]
    simp only [Bool.and_eq_true, decide_eq_true_eq, Bool.or_eq_true, beq_iff_eq]
    exact ⟨hdoc, hst⟩
  exact List.mem_map.mpr ⟨r, hr, by rw [if_pos hcond]⟩

theorem skip_runs_segment_mem {w : World} {hj : HeaderJson} {cur : Nat} {msg : String}
    {now : Int} (hfires : firesGuard hj = true) {sg : SegmentRow} (hsg : sg ∈ w.segments)
    (hrun : ∃ r ∈ w.runs, runShouldSkip (tripleDocIds w hj cur) r = true ∧
      r.id = sg.extraction_run_id)
    (hst : sg.status = SegmentStatus.PENDING ∨ sg.status = SegmentStatus.RUNNING) :
    { sg with status := SegmentStatus.SKIPPED,
              raw_response_json := some (skippedPayload msg) }
      ∈ (_skip_duplicate_runs w hj cur msg now).segments := by
  unfold _skip_duplicate_runs
  rw [if_pos hfires]
  have hcond : ((w.runs.any (fun r => runShouldSkip (tripleDocIds w hj cur) r
      && r.id == sg.extraction_run_id))
      && (sg.status == SegmentStatus.PENDING || sg.status == SegmentStatus.RUNNING)) = true := by
    simp only [Bool.and_eq_true, List.any_eq_true, Bool.or_eq_true, beq_iff_eq]
    obtain ⟨r, hrm, hsk, hid⟩ := hrun
    exact ⟨⟨r, hrm, hsk, hid⟩, hst⟩
  exact List.mem_map.mpr ⟨sg, hsg, by rw [if_pos hcond]⟩

theorem process_header_eq {w : World} {segment_id rid : Nat} {seg : SegmentRow}
    {run : RunRow} {parsed : ParsedResponse} (now : Int)
    (hseg : findSegment w segment_id = some seg)
    (hrun : findRun w rid = some run)
    (hns : run.status ≠ ExtractionRunStatus.SKIPPED) :
    process_header_response w segment_id parsed rid now =
      (let w1 := setSegment w segment_id (persistDoneHeader parsed)
       match parsed.header with
       | some hj =>
           let check := _check_duplicate_document w1 hj run.document_id
           if check.1 then
             let msg := (check.2).getD ""
             let w2 := _skip_duplicate_runs w1 hj run.document_id msg now
             setSegment w2 segment_id (markSkipped msg)
           else
             let w2 := _upsert_document_header w1 run.document_id hj
             _update_extraction_run_status w2 rid now
       | Option.none => _update_extraction_run_status w1 rid now) := by
  unfold process_header_response
  rw [hseg, hrun]
  show (if run.status = ExtractionRunStatus.SKIPPED then
      setSegment w segment_id (markSkipped (run.error_message.getD "Run was skipped"))
    else
      let w1 := setSegment w segment_id (persistDoneHeader parsed)
      match parsed.header with
      | some hj =>
          let check := _check_duplicate_document w1 hj run.document_id
          if check.1 then
            let msg := (check.2).getD ""
            let w2 := _skip_duplicate_runs w1 hj run.document_id msg now
            setSegment w2 segment_id (markSkipped msg)
          else
            let w2 := _upsert_document_header w1 run.document_id hj
            _update_extraction_run_status w2 rid now
      | Option.none => _update_extraction_run_status w1 rid now) = _
  rw [if_neg hns]

/-- C2 (amended): whenever a HEADER segment parses successfully and its
header passes the guard's firing test (truthy — non-empty — state, non-null
part number, non-null english constituency numeral) and another document's
stored header already holds the same triple, the current header is not
upserted, every PENDING/RUNNING run of every document sharing the triple
(including the current document) transitions to SKIPPED with the duplicate
reason, every PENDING/RUNNING segment of those runs transitions to SKIPPED
with the `{skipped, reason}` payload, and the current header segment itself
ends SKIPPED with that payload; with no duplicate the header is upserted
normally. -/
theorem duplicate_guard_skips_runs (w : World) (segment_id rid : Nat) (seg : SegmentRow)
    (run : RunRow) (parsed : ParsedResponse) (hj : HeaderJson) (now : Int)
    (hseg : findSegment w segment_id = some seg)
    (hrun : findRun w rid = some run)
    (hns : run.status ≠ ExtractionRunStatus.SKIPPED)
    (hhdr : parsed.header = some hj)
    (hfires : firesGuard hj = true) :
    ((∃ h0 ∈ w.headers, matchesTriple hj h0 = true ∧ h0.document_id ≠ run.document_id) →
      (process_header_response w segment_id parsed rid now).headers = w.headers ∧
      (∀ r ∈ w.runs, r.document_id ∈ tripleDocIds w hj run.document_id →
        r.status = ExtractionRunStatus.PENDING ∨ r.status = ExtractionRunStatus.RUNNING →
        { r with status := ExtractionRunStatus.SKIPPED,
                 error_message := some (dupErrorMsg hj),
                 finished_at := some (r.finished_at.getD now) }
          ∈ (process_header_response w segment_id parsed rid now).runs) ∧
      (∀ sg2 ∈ w.segments, sg2.id ≠ segment_id →
        (∃ r ∈ w.runs, runShouldSkip (tripleDocIds w hj run.document_id) r = true ∧
          r.id = sg2.extraction_run_id) →
        sg2.status = SegmentStatus.PENDING ∨ sg2.status = SegmentStatus.RUNNING →
        { sg2 with status := SegmentStatus.SKIPPED,
                   raw_response_json := some (skippedPayload (dupErrorMsg hj)) }
          ∈ (process_header_response w segment_id parsed rid now).segments) ∧
      markSkipped (dupErrorMsg hj) (persistDoneHeader parsed seg)
        ∈ (process_header_response w segment_id parsed rid now).segments) ∧
    ((∀ h0 ∈ w.headers, matchesTriple hj h0 = true → h0.document_id = run.document_id) →
      process_header_response w segment_id parsed rid now =
        _update_extraction_run_status
          (_upsert_document_header (setSegment w segment_id (persistDoneHeader parsed))
            run.document_id hj) rid now) := by
  constructor
  · intro hdup
    have hcheck : _check_duplicate_document
        (setSegment w segment_id (persistDoneHeader parsed)) hj run.document_id
        = (true, some (dupErrorMsg hj)) := check_dup_true hfires hdup
    have hred : process_header_response w segment_id parsed rid now =
        setSegment
          (_skip_duplicate_runs (setSegment w segment_id (persistDoneHeader parsed)) hj
            run.document_id (dupErrorMsg hj) now)
          segment_id (markSkipped (dupErrorMsg hj)) := by
      rw [process_header_eq now hseg hrun hns]
      simp only [hhdr]
      rw [hcheck]
      rfl
    rw [hred]
    refine ⟨?_, ?_, ?_, ?_⟩
    · exact skip_runs_headers (setSegment w segment_id (persistDoneHeader parsed)) hj
        run.document_id (dupErrorMsg hj) now
    · intro r hr hdoc hst
      exact skip_runs_run_mem hfires hr hdoc hst
    · intro sg2 hsg2 hid hex hst
      have hid2 : (sg2.id == segment_id) = false := by
        simp [hid]
      have hsg2w1 : sg2 ∈ (setSegment w segment_id (persistDoneHeader parsed)).segments :=
        List.mem_map.mpr ⟨sg2, hsg2, by rw [if_neg (by simp [hid2])]⟩
      have hmid : markSkipped (dupErrorMsg hj) sg2
          ∈ (_skip_duplicate_runs (setSegment w segment_id (persistDoneHeader parsed)) hj
              run.document_id (dupErrorMsg hj) now).segments :=
        skip_runs_segment_mem hfires hsg2w1 hex hst
      have hcond : ¬ ((markSkipped (dupErrorMsg hj) sg2).id == segment_id) = true := by
        simp [markSkipped, hid]
      refine List.mem_map.mpr ⟨markSkipped (dupErrorMsg hj) sg2, hmid, ?_⟩
      rw [if_neg hcond]
      rfl
    · have hmemseg : seg ∈ w.segments := List.mem_of_find?_eq_some hseg
      have hidseg : (seg.id == segment_id) = true := by
        simpa using List.find?_some hseg
      have h1 : persistDoneHeader parsed seg
          ∈ (setSegment w segment_id (persistDoneHeader parsed)).segments :=
        List.mem_map.mpr ⟨seg, hmemseg, by rw [if_pos hidseg]⟩
      have h2 : persistDoneHeader parsed seg
          ∈ (_skip_duplicate_runs (setSegment w segment_id (persistDoneHeader parsed)) hj
              run.document_id (dupErrorMsg hj) now).segments := by
        unfold _skip_duplicate_runs
        rw [if_pos hfires]
        exact List.mem_map.mpr ⟨persistDoneHeader parsed seg, h1,
          by rw [if_neg (by simp [persistDoneHeader])]⟩
      refine List.mem_map.mpr ⟨persistDoneHeader parsed seg, h2, ?_⟩
      have hidp : ((persistDoneHeader parsed seg).id == segment_id) = true := hidseg
      rw [if_pos hidp]
  · intro hnodup
    have hcheck : _check_duplicate_document
        (setSegment w segment_id (persistDoneHeader parsed)) hj run.document_id
        = (false, Option.none) := check_dup_false_no_match hnodup
    rw [process_header_eq now hseg hrun hns]
    simp only [hhdr]
    rw [hcheck]
    rfl

/-- Counterexample to C2 as stated: the parsed header has state, part number
and constituency number all non-null (state is the empty string), another
document's stored header holds the identical triple, yet the header IS
upserted (headers change) and no run is skipped. -/
theorem duplicate_guard_skips_runs_counterexample :
    hjC2.state ≠ Option.none ∧ hjC2.part_number ≠ Option.none ∧
    hjC2.ac_number_english ≠ Option.none ∧
    (∃ h0 ∈ w2cex.headers, matchesTriple hjC2 h0 = true ∧
      h0.document_id ≠ runC2.document_id) ∧
    findSegment w2cex 20 = some segC2 ∧ findRun w2cex 11 = some runC2 ∧
    runC2.status ≠ ExtractionRunStatus.SKIPPED ∧ parsedC2.header = some hjC2 ∧
    (process_header_response w2cex 20 parsedC2 11 0).headers ≠ w2cex.headers ∧
    (∀ r ∈ (process_header_response w2cex 20 parsedC2 11 0).runs,
      r.status ≠ ExtractionRunStatus.SKIPPED) := by
  decide

/-- Witness for C2 (amended) on a two-document duplicate world: the header is
not upserted, both runs become SKIPPED with the duplicate reason, and the
other document's pending segment and the current header segment end SKIPPED
with the payload. -/
theorem duplicate_guard_skips_runs_witness :
    (process_header_response wDup 40 parsedDup 31 0).headers = wDup.headers ∧
    { runDup with status := ExtractionRunStatus.SKIPPED,
                  error_message := some (dupErrorMsg hjDup),
                  finished_at := some (runDup.finished_at.getD 0) }
      ∈ (process_header_response wDup 40 parsedDup 31 0).runs ∧
    { runDupOther with status := ExtractionRunStatus.SKIPPED,
                       error_message := some (dupErrorMsg hjDup),
                       finished_at := some (runDupOther.finished_at.getD 0) }
      ∈ (process_header_response wDup 40 parsedDup 31 0).runs ∧
    { segDupOther with status := SegmentStatus.SKIPPED,
                       raw_response_json := some (skippedPayload (dupErrorMsg hjDup)) }
      ∈ (process_header_response wDup 40 parsedDup 31 0).segments ∧
    markSkipped (dupErrorMsg hjDup) (persistDoneHeader parsedDup segDup)
      ∈ (process_header_response wDup 40 parsedDup 31 0).segments := by
  have h := duplicate_guard_skips_runs wDup 40 31 segDup runDup parsedDup hjDup 0
    (by decide) (by decide) (by decide) rfl (by decide)
  have hc := h.1 ⟨storedDup, by decide, by decide, by decide⟩
  refine ⟨hc.1, ?_, ?_, ?_, hc.2.2.2⟩
  · exact hc.2.1 runDup (by decide) (by decide) (Or.inr rfl)
  · exact hc.2.1 runDupOther (by decide) (by decide) (Or.inl rfl)
  · exact hc.2.2.1 segDupOther (by decide) (by decide)
      ⟨runDupOther, by decide, by decide, rfl⟩ (Or.inl rfl)

/-- C10: when the parsed header's state is the empty string, or its
constituency numeral has no english value, the duplicate check reports
not-duplicate against any stored headers whatsoever (including an identical
triple), and the pipeline upserts the header normally — duplicate
suppression is silently disabled for such headers. -/
theorem duplicate_guard_truthiness_gap (w : World) (segment_id rid : Nat) (seg : SegmentRow)
    (run : RunRow) (parsed : ParsedResponse) (hj : HeaderJson) (now : Int)
    (hseg : findSegment w segment_id = some seg)
    (hrun : findRun w rid = some run)
    (hns : run.status ≠ ExtractionRunStatus.SKIPPED)
    (hhdr : parsed.header = some hj)
    (hcase : hj.state = some "" ∨ hj.ac_number_english = Option.none) :
    _check_duplicate_document w hj run.document_id = (false, Option.none) ∧
    process_header_response w segment_id parsed rid now =
      _update_extraction_run_status
        (_upsert_document_header (setSegment w segment_id (persistDoneHeader parsed))
          run.document_id hj) rid now := by
  have hng : firesGuard hj = false := by
    rcases hcase with h | h
    · simp [firesGuard, h, truthyStr]
    · simp [firesGuard, h]
  refine ⟨check_dup_false_guard hng w run.document_id, ?_⟩
  rw [process_header_eq now hseg hrun hns]
  simp only [hhdr]
  rw [check_dup_false_guard hng _ run.document_id]
  rfl

/-- Witness for C10 on a world holding an identical stored triple. -/
theorem duplicate_guard_truthiness_gap_witness :
    _check_duplicate_document w10 hjC10 runC10.document_id = (false, Option.none) ∧
    process_header_response w10 22 parsedC10 21 0 =
      _update_extraction_run_status
        (_upsert_document_header (setSegment w10 22 (persistDoneHeader parsedC10))
          runC10.document_id hjC10) 21 0 :=
  duplicate_guard_truthiness_gap w10 22 21 segC10 runC10 parsedC10 hjC10 0
    (by decide) (by decide) (by decide) rfl (Or.inl rfl)


end Electoral
